import Mathlib

/-!
# wgp2p: rendezvous registry and tunnel peer list

A shallow embedding of the registration handler of `server/main.go` and of the
peer-list operations of `client-peer/wgconf/wgconf.go`.

* Go maps are total functions into `Option` (absent key = `none`).
* A method on a pointer receiver returns the receiver's new state together
  with the returned `error` (`none` for `nil`).
* Calls that leave the process (an outbound `http.Post`, the tunnel driver)
  are recorded as explicit effects or act on an explicit driver state.
-/

namespace wgconf

/-- The `Endpoint` struct of `wgconf.go`. -/
structure Endpoint where
  Host : String
  Port : Int
  deriving DecidableEq, Repr

end wgconf

namespace server

/-- The `Peer` struct of `server/main.go`. -/
structure Peer where
  ID : String
  Token : String
  PublicKey : String
  Endpoint : wgconf.Endpoint
  deriving DecidableEq, Repr

/-- The `Config` struct of `server/main.go`; `ConnectedPeers` is a Go map. -/
structure Config where
  ListenAddr : String
  ListenPort : Int
  ControlPort : Int
  PrivateKey : String
  ConnectedPeers : String → Option String

/-- The `Server` struct of `server/main.go` (the mutex has no state of its own
in a sequential run of one handler). -/
structure Server where
  Config : Config
  Peers : String → Option Peer

/-- The anonymous struct `serverInfo` written to the registrant. -/
structure ServerInfo where
  ListenAddr : String
  ListenPort : Int
  deriving DecidableEq, Repr

/-- What a handler wrote to its `http.ResponseWriter`. -/
inductive Body where
  | text (msg : String)
  | json (info : ServerInfo)
  deriving DecidableEq, Repr

/-- One call `http.Post(url, contentType, body)`; the body is the marshalled
peer, kept as the record it was marshalled from. -/
structure PostCall where
  url : String
  contentType : String
  payload : Peer
  deriving DecidableEq, Repr

/-- Outcome of `http.Post`: a transport error or a response status code. -/
inductive PostResult where
  | transportError (msg : String)
  | response (statusCode : Nat)
  deriving DecidableEq, Repr

/-- A line written with `log.Printf`. -/
inductive LogLine where
  | peerNotFound (peerID : String)
  | targetNotFound (targetPeerID : String)
  | postFailed (msg : String)
  | postStatus (statusCode : Nat)
  deriving DecidableEq, Repr

/-- Go map assignment `m[k] = v`. -/
def mapSet {V : Type} (m : String → Option V) (k : String) (v : V) : String → Option V :=
  fun j => if j = k then some v else m j

/-- Go map read `m[k]` of a `map[string]string`: the zero value for a missing key. -/
def mapGetString (m : String → Option String) (k : String) : String :=
  match m k with
  | some v => v
  | none => ""

/-- The token compared against in `registerPeer`. -/
def secretToken : String := "mi-token-secreto"

/-- The URL built by `fmt.Sprintf("%s:%d/connect", host, port)`. -/
def connectURL (e : wgconf.Endpoint) : String :=
  e.Host ++ ":" ++ toString e.Port ++ "/connect"

/-- Effects of `sendPeerInfo`: the outbound posts issued and the lines logged. -/
structure SendEffects where
  posts : List PostCall
  logs : List LogLine
  deriving DecidableEq, Repr

/-- `Server.sendPeerInfo`. `post` is the outcome of `http.Post` for a call.
`json.Marshal` of a `Peer` (strings and integers only) cannot fail. -/
def sendPeerInfo (post : PostCall → PostResult) (s : Server)
    (peerID targetPeerID : String) : SendEffects :=
  match s.Peers peerID with
  | none => { posts := [], logs := [LogLine.peerNotFound peerID] }
  | some peer =>
    match s.Peers targetPeerID with
    | none => { posts := [], logs := [LogLine.targetNotFound targetPeerID] }
    | some targetPeer =>
      let call : PostCall :=
        { url := connectURL targetPeer.Endpoint, contentType := "application/json",
          payload := peer }
      match post call with
      | PostResult.transportError msg => { posts := [call], logs := [LogLine.postFailed msg] }
      | PostResult.response statusCode =>
        if statusCode ≠ 200 then { posts := [call], logs := [LogLine.postStatus statusCode] }
        else { posts := [call], logs := [] }

/-- Everything one run of `registerPeer` produces. -/
structure HandlerResult where
  server : Server
  status : Nat
  body : Body
  posts : List PostCall
  logs : List LogLine

/-- `Server.registerPeer`. The request is given by the outcome of
`json.NewDecoder(r.Body).Decode(&peer)`: an error text or the decoded peer. -/
def registerPeer (post : PostCall → PostResult) (s : Server)
    (decoded : Except String Peer) : HandlerResult :=
  match decoded with
  | Except.error msg =>
    { server := s, status := 400, body := Body.text msg, posts := [], logs := [] }
  | Except.ok peer =>
    if peer.Token ≠ secretToken then
      { server := s, status := 401, body := Body.text "Token inválido", posts := [], logs := [] }
    else
      let s1 : Server := { s with Peers := mapSet s.Peers peer.ID peer }
      let targetPeerID := mapGetString s1.Config.ConnectedPeers peer.ID
      let eff := sendPeerInfo post s1 peer.ID targetPeerID
      let serverInfo : ServerInfo :=
        { ListenAddr := s1.Config.ListenAddr, ListenPort := s1.Config.ListenPort }
      { server := s1, status := 200, body := Body.json serverInfo,
        posts := eff.posts, logs := eff.logs }

end server

namespace http

/-- The scanning loop of `getScheme` in Go `net/url`, which `http.Post` runs on
its URL: `seen` holds the characters before the current one, last first (it is
empty at index 0), `raw` is the whole text. The result is the scheme and the
text after its colon; the scheme is empty when the text has none. -/
def getSchemeLoop (raw : List Char) : List Char → List Char → Except String (List Char × List Char)
  | [], _ => Except.ok ([], raw)
  | c :: cs, seen =>
    let n := c.toNat
    if (97 ≤ n ∧ n ≤ 122) ∨ (65 ≤ n ∧ n ≤ 90) then getSchemeLoop raw cs (c :: seen)
    else if (48 ≤ n ∧ n ≤ 57) ∨ n = 43 ∨ n = 45 ∨ n = 46 then
      if seen = [] then Except.ok ([], raw) else getSchemeLoop raw cs (c :: seen)
    else if n = 58 then
      if seen = [] then Except.error "missing protocol scheme"
      else Except.ok (seen.reverse, cs)
    else Except.ok ([], raw)

/-- `getScheme` of Go `net/url`. -/
def getScheme (raw : List Char) : Except String (List Char × List Char) :=
  getSchemeLoop raw raw []

/-- The character codes of a scheme in lower case, as `url.Parse` stores it. -/
def lowerCodes (scheme : List Char) : List Nat :=
  scheme.map (fun c => if 65 ≤ c.toNat ∧ c.toNat ≤ 90 then c.toNat + 32 else c.toNat)

/-- The text before the first `/`. -/
def firstSegment : List Char → List Char
  | [] => []
  | c :: cs => if c.toNat = 47 then [] else c :: firstSegment cs

/-- Why `http.Post` returns an error for a URL before anything is sent, if it
does: `url.Parse` refuses a text without scheme whose first path segment holds
a colon, and the default transport refuses every scheme other than `http` and
`https`. (Query and fragment are not split off; the URLs built by
`sendPeerInfo` are judged by their first characters.) -/
def rejected (rawURL : String) : Option String :=
  match getScheme rawURL.toList with
  | Except.error msg => some msg
  | Except.ok (scheme, rest) =>
    if scheme = [] then
      if rest.head? ≠ some (Char.ofNat 47) ∧ (firstSegment rest).any (fun c => c.toNat = 58) then
        some "first path segment in URL cannot contain colon"
      else some "unsupported protocol scheme"
    else if lowerCodes scheme = [104, 116, 116, 112] ∨
        lowerCodes scheme = [104, 116, 116, 112, 115] then none
    else some "unsupported protocol scheme"

/-- `http.Post` in front of a network: a call whose URL is rejected returns
the error and nothing is sent; any other call gets what the network `network`
answers. -/
def Post (network : server.PostCall → server.PostResult) (call : server.PostCall) :
    server.PostResult :=
  match rejected call.url with
  | some msg => server.PostResult.transportError msg
  | none => network call

end http

namespace wgtypes

/-- A `wgtypes.Key`: the 32 bytes of a key; Go compares keys byte by byte. -/
structure Key where
  bytes : List Nat
  deriving DecidableEq, Repr

end wgtypes

namespace net

/-- A `net.IPNet`: the network address and the mask, as bytes. -/
structure IPNet where
  IP : List Nat
  Mask : List Nat
  deriving DecidableEq, Repr

/-- A `net.UDPAddr`; `IP` is the empty list for a nil `net.IP`. -/
structure UDPAddr where
  IP : List Nat
  Port : Int
  deriving DecidableEq, Repr

end net

namespace time

/-- The constant `time.Second`, in nanoseconds. -/
def Second : Int := 1000000000

/-- Wrap-around of a 64-bit signed integer. -/
def wrapInt64 (x : Int) : Int := (x + 2 ^ 63) % 2 ^ 64 - 2 ^ 63

/-- The product `time.Duration(n) * time.Second`, an `int64` multiplication. -/
def seconds (n : Int) : Int := wrapInt64 (n * Second)

end time

namespace wgtypes

/-- The `wgtypes.PeerConfig` handed to the driver. A nil pointer is `none`. -/
structure PeerConfig where
  PublicKey : Key
  Remove : Bool := false
  UpdateOnly : Bool := false
  PresharedKey : Option Key := none
  Endpoint : Option net.UDPAddr := none
  PersistentKeepaliveInterval : Option Int := none
  ReplaceAllowedIPs : Bool := false
  AllowedIPs : List net.IPNet := []
  deriving DecidableEq, Repr

/-- The `wgtypes.Config` handed to the driver. A nil pointer is `none`. -/
structure Config where
  PrivateKey : Option Key := none
  ListenPort : Option Int := none
  FirewallMark : Option Int := none
  ReplacePeers : Bool := false
  Peers : List PeerConfig := []
  deriving DecidableEq, Repr

end wgtypes

namespace wgconf

/-- The `IPAddrAndMac` struct of `wgconf.go`. -/
structure IPAddrAndMac where
  IpAddr : String := ""
  MaskAddr : Int := 0
  deriving DecidableEq, Repr

/-- The `Peer` struct of `wgconf.go`. -/
structure Peer where
  PublicKey : String
  Endpoint : Endpoint
  AllowedIPs : List String
  KeepAlive : Int
  deriving DecidableEq, Repr

/-- The `WireGuardTrun` struct of `wgconf.go`. -/
structure WireGuardTrun where
  InterfaceName : String
  PrivateKey : String
  ListenPort : Int
  Address : IPAddrAndMac
  cfg : wgtypes.Config
  deriving DecidableEq, Repr

/-- The library parsers `wgconf.go` calls: `wgtypes.ParseKey`, `net.ParseCIDR`
(its `*IPNet` result) and `net.ParseIP` (the empty list for nil). The theorems
hold for every choice of the three. -/
structure Lib where
  ParseKey : String → Option wgtypes.Key
  ParseCIDR : String → Option net.IPNet
  ParseIP : String → List Nat

/-- The errors `wgconf.go` builds with `fmt.Errorf`, one constructor per
message. -/
inductive WgError where
  | parsePeerKey
  | parseAllowedIPs
  | peerNotFound (peerPublicKey : String)
  | wgctrlClient
  | configureDevice (interfaceName : String)
  deriving DecidableEq, Repr

/-- `WithInterfaceName`. -/
def WithInterfaceName (ifaceName : String) : WireGuardTrun → WireGuardTrun :=
  fun wg => { wg with InterfaceName := ifaceName }

/-- `WithPrivateKey`. -/
def WithPrivateKey (privateKey : String) : WireGuardTrun → WireGuardTrun :=
  fun wg => { wg with PrivateKey := privateKey }

/-- `WithListenPort`. -/
def WithListenPort (port : Int) : WireGuardTrun → WireGuardTrun :=
  fun wg => { wg with ListenPort := port }

/-- `WithInterfaceIp`. -/
def WithInterfaceIp (address : IPAddrAndMac) : WireGuardTrun → WireGuardTrun :=
  fun wg => { wg with Address := address }

/-- `NewWireGuardTrun`. `generated` is what `wgkeys.GeneratePrivateKey()`
returns when it is called. -/
def NewWireGuardTrun (generated : String) (options : List (WireGuardTrun → WireGuardTrun)) :
    WireGuardTrun :=
  let wg0 : WireGuardTrun :=
    { InterfaceName := "wg0", PrivateKey := "", ListenPort := 51820, Address := {}, cfg := {} }
  let wg := options.foldl (fun w opt => opt w) wg0
  if wg.PrivateKey = "" then { wg with PrivateKey := generated } else wg

/-- The loop of `AddPeer` over `peer.AllowedIPs`: `acc` is the local slice
`allowedIPs`; `none` is the early return on a `net.ParseCIDR` error. -/
def parseAllowedIPs (L : Lib) : List String → List net.IPNet → Option (List net.IPNet)
  | [], acc => some acc
  | ip :: rest, acc =>
    match L.ParseCIDR ip with
    | none => none
    | some ipnet => parseAllowedIPs L rest (acc ++ [ipnet])

/-- `WireGuardTrun.AddPeer`. -/
def AddPeer (L : Lib) (wg : WireGuardTrun) (peer : Peer) : WireGuardTrun × Option WgError :=
  match L.ParseKey peer.PublicKey with
  | none => (wg, some WgError.parsePeerKey)
  | some peerKey =>
    match parseAllowedIPs L peer.AllowedIPs [] with
    | none => (wg, some WgError.parseAllowedIPs)
    | some allowedIPs =>
      let endpoint : net.UDPAddr :=
        { IP := L.ParseIP peer.Endpoint.Host, Port := peer.Endpoint.Port }
      let newPeer : wgtypes.PeerConfig :=
        { PublicKey := peerKey,
          Endpoint := some endpoint,
          AllowedIPs := allowedIPs,
          PersistentKeepaliveInterval := some (time.seconds peer.KeepAlive) }
      ({ wg with cfg := { wg.cfg with Peers := wg.cfg.Peers ++ [newPeer] } }, none)

/-- The loop of `RemovePeer`: the first index whose entry has the key. -/
def findPeerIndex (peerKey : wgtypes.Key) : List wgtypes.PeerConfig → Option Nat
  | [] => none
  | peer :: rest =>
    if peer.PublicKey = peerKey then some 0
    else (findPeerIndex peerKey rest).map (fun i => i + 1)

/-- `WireGuardTrun.RemovePeer`. -/
def RemovePeer (L : Lib) (wg : WireGuardTrun) (peerPublicKey : String) :
    WireGuardTrun × Option WgError :=
  match L.ParseKey peerPublicKey with
  | none => (wg, some WgError.parsePeerKey)
  | some peerKey =>
    match findPeerIndex peerKey wg.cfg.Peers with
    | some i =>
      ({ wg with cfg := { wg.cfg with
            Peers := wg.cfg.Peers.take i ++ wg.cfg.Peers.drop (i + 1) } }, none)
    | none => (wg, some (WgError.peerNotFound peerPublicKey))

end wgconf

namespace wgctrl

/-- The attributes the driver keeps for one peer of a device. -/
structure DevicePeer where
  PresharedKey : Option wgtypes.Key
  Endpoint : Option net.UDPAddr
  PersistentKeepaliveInterval : Int
  deriving DecidableEq, Repr

/-- The live state of one tunnel device. `Peers` is keyed by public key;
`AllowedIPs` is the routing table of the device: the peer that owns a prefix,
so a prefix belongs to at most one peer. -/
structure Device where
  PrivateKey : Option wgtypes.Key
  ListenPort : Int
  FirewallMark : Int
  Peers : wgtypes.Key → Option DevicePeer
  AllowedIPs : net.IPNet → Option wgtypes.Key

/-- The operating-system side seen through `wgctrl`: whether `wgctrl.New`
fails, and the tunnel devices by interface name. -/
structure Driver where
  clientFails : Bool
  devices : String → Option Device

/-- The prefixes of peer `k` dropped from a routing table. -/
def clearAllowedIPs (t : net.IPNet → Option wgtypes.Key) (k : wgtypes.Key) :
    net.IPNet → Option wgtypes.Key :=
  fun n => if t n = some k then none else t n

/-- The prefix `n` given to peer `k` (and so taken from its former owner). -/
def setAllowedIP (k : wgtypes.Key) (t : net.IPNet → Option wgtypes.Key) (n : net.IPNet) :
    net.IPNet → Option wgtypes.Key :=
  fun m => if m = n then some k else t m

/-- Modelled from the spec: the driver applying one `wgtypes.PeerConfig` to a
device; the driver (`wgctrl`) is the external peer-configuration primitive of
section 6 and is not among the sources. The fields mean what `wgtypes`
documents: `Remove` deletes the peer with that key; `UpdateOnly` skips a peer
that is not on the device; otherwise the peer is created when absent, a non-nil
`PresharedKey`, `Endpoint` or `PersistentKeepaliveInterval` overwrites the
stored value, `ReplaceAllowedIPs` first drops the peer's prefixes, and the
listed prefixes are added to the peer. -/
def configurePeer (d : Device) (pc : wgtypes.PeerConfig) : Device :=
  if pc.Remove then
    { d with
      Peers := fun k => if k = pc.PublicKey then none else d.Peers k,
      AllowedIPs := clearAllowedIPs d.AllowedIPs pc.PublicKey }
  else if pc.UpdateOnly && (d.Peers pc.PublicKey).isNone then d
  else
    let old : DevicePeer :=
      match d.Peers pc.PublicKey with
      | some p => p
      | none => { PresharedKey := none, Endpoint := none, PersistentKeepaliveInterval := 0 }
    let updated : DevicePeer :=
      { PresharedKey :=
          match pc.PresharedKey with
          | some k => some k
          | none => old.PresharedKey,
        Endpoint :=
          match pc.Endpoint with
          | some e => some e
          | none => old.Endpoint,
        PersistentKeepaliveInterval :=
          match pc.PersistentKeepaliveInterval with
          | some t => t
          | none => old.PersistentKeepaliveInterval }
    let table :=
      if pc.ReplaceAllowedIPs then clearAllowedIPs d.AllowedIPs pc.PublicKey else d.AllowedIPs
    { d with
      Peers := fun k => if k = pc.PublicKey then some updated else d.Peers k,
      AllowedIPs := pc.AllowedIPs.foldl (setAllowedIP pc.PublicKey) table }

/-- Modelled from the spec: the device-level fields of a `wgtypes.Config`
applied to a device (see `configurePeer`): a non-nil `PrivateKey`, `ListenPort`
or `FirewallMark` overwrites the stored value. -/
def configureFields (d : Device) (cfg : wgtypes.Config) : Device :=
  { d with
    PrivateKey :=
      match cfg.PrivateKey with
      | some k => some k
      | none => d.PrivateKey,
    ListenPort :=
      match cfg.ListenPort with
      | some p => p
      | none => d.ListenPort,
    FirewallMark :=
      match cfg.FirewallMark with
      | some m => m
      | none => d.FirewallMark }

/-- Modelled from the spec: the driver applying a `wgtypes.Config` to a device
(see `configurePeer`). After the device-level fields, `ReplacePeers` first
empties the peer list, and without it the listed peers are added to the peers
already there; the listed peers are applied in order. -/
def configureDevice (d : Device) (cfg : wgtypes.Config) : Device :=
  let d1 := configureFields d cfg
  let d2 : Device :=
    if cfg.ReplacePeers then { d1 with Peers := fun _ => none, AllowedIPs := fun _ => none }
    else d1
  cfg.Peers.foldl configurePeer d2

/-- Modelled from the spec: `Client.ConfigureDevice(name, cfg)` of the driver;
`none` is an error (no device of that name), otherwise the device of that name
is configured with `configureDevice`. -/
def ConfigureDevice (os : Driver) (name : String) (cfg : wgtypes.Config) : Option Driver :=
  match os.devices name with
  | none => none
  | some d =>
    some { os with devices := fun n => if n = name then some (configureDevice d cfg) else os.devices n }

end wgctrl

namespace wgconf

/-- `WireGuardTrun.UpdateConfigInterfaceWgTrun`. The receiver is only read; the
result is the driver state after the call and the returned error. -/
def UpdateConfigInterfaceWgTrun (wg : WireGuardTrun) (os : wgctrl.Driver) :
    wgctrl.Driver × Option WgError :=
  if os.clientFails then (os, some WgError.wgctrlClient)
  else
    match wgctrl.ConfigureDevice os wg.InterfaceName wg.cfg with
    | none => (os, some (WgError.configureDevice wg.InterfaceName))
    | some os1 => (os1, none)

end wgconf

/-! ## Vocabulary of the statements -/

namespace wgconf

/-- The entry `AddPeer` appends for `peer`, when its key and all its CIDRs
parse. -/
def peerConfigOf (L : Lib) (peer : Peer) : Option wgtypes.PeerConfig :=
  match L.ParseKey peer.PublicKey, parseAllowedIPs L peer.AllowedIPs [] with
  | some peerKey, some allowedIPs =>
    some { PublicKey := peerKey,
           Endpoint := some { IP := L.ParseIP peer.Endpoint.Host, Port := peer.Endpoint.Port },
           AllowedIPs := allowedIPs,
           PersistentKeepaliveInterval := some (time.seconds peer.KeepAlive) }
  | _, _ => none

/-- A valid peer: its public key parses and every entry of its allowedIPs
parses as a CIDR. -/
def validPeer (L : Lib) (peer : Peer) : Bool := (peerConfigOf L peer).isSome

/-- The entries `AddPeer` appends for the valid peers of a list, in order. -/
def peerConfigsOf (L : Lib) (peers : List Peer) : List wgtypes.PeerConfig :=
  peers.filterMap (peerConfigOf L)

/-- The public keys of a peer list, in order. -/
def keysOf (peers : List wgtypes.PeerConfig) : List wgtypes.Key :=
  peers.map (fun p => p.PublicKey)

/-- `AddPeer` for each peer of a list in order, the returned errors dropped
as in the `main` functions. -/
def addPeers (L : Lib) (wg : WireGuardTrun) (peers : List Peer) : WireGuardTrun :=
  peers.foldl (fun w p => (AddPeer L w p).1) wg

/-- One application of a desired list to a handle and the driver: `AddPeer`
for each peer in order, then `UpdateConfigInterfaceWgTrun`. -/
def applyDesired (L : Lib) (wg : WireGuardTrun) (os : wgctrl.Driver) (peers : List Peer) :
    WireGuardTrun × wgctrl.Driver × Option WgError :=
  let wg1 := addPeers L wg peers
  (wg1, UpdateConfigInterfaceWgTrun wg1 os)

/-- A call on a handle: `AddPeer` or `RemovePeer`. -/
inductive Call where
  | add (peer : Peer)
  | remove (peerPublicKey : String)
  deriving DecidableEq, Repr

/-- The handle after one call. -/
def runCall (L : Lib) (wg : WireGuardTrun) : Call → WireGuardTrun
  | Call.add peer => (AddPeer L wg peer).1
  | Call.remove peerPublicKey => (RemovePeer L wg peerPublicKey).1

/-- The handle after a sequence of calls. -/
def runCalls (L : Lib) (wg : WireGuardTrun) (calls : List Call) : WireGuardTrun :=
  calls.foldl (runCall L) wg

/-- No `AddPeer` of the sequence is given a key that the peer list holds at
the moment of the call. -/
def addsAreNew (L : Lib) (wg : WireGuardTrun) : List Call → Bool
  | [] => true
  | Call.add peer :: rest =>
    (match L.ParseKey peer.PublicKey with
      | some k => !((keysOf wg.cfg.Peers).contains k)
      | none => true) && addsAreNew L (runCall L wg (Call.add peer)) rest
  | Call.remove key :: rest => addsAreNew L (runCall L wg (Call.remove key)) rest

/-- The options the package offers for `NewWireGuardTrun`. -/
def IsPackageOption (opt : WireGuardTrun → WireGuardTrun) : Prop :=
  (∃ ifaceName, opt = WithInterfaceName ifaceName) ∨ (∃ privateKey, opt = WithPrivateKey privateKey) ∨
    (∃ port, opt = WithListenPort port) ∨ (∃ address, opt = WithInterfaceIp address)

/-- The shape of the entries `AddPeer` builds: no `Remove`, `UpdateOnly` or
`ReplaceAllowedIPs` flag, no preshared key, an endpoint and a keepalive. -/
def AsBuilt (pc : wgtypes.PeerConfig) : Prop :=
  pc.Remove = false ∧ pc.UpdateOnly = false ∧ pc.ReplaceAllowedIPs = false ∧
    pc.PresharedKey = none ∧ pc.Endpoint.isSome = true ∧
    pc.PersistentKeepaliveInterval.isSome = true

/-- No prefix is listed by two different entries of a peer list. -/
def DisjointAllowedIPs (peers : List wgtypes.PeerConfig) : Prop :=
  peers.Pairwise (fun a b => ∀ n, n ∈ a.AllowedIPs → n ∉ b.AllowedIPs)

end wgconf

namespace wgctrl

/-- The device has a peer with key `k`. -/
def Device.hasPeer (d : Device) (k : wgtypes.Key) : Bool := (d.Peers k).isSome

/-- What the device holds for the key of a peer-list entry is exactly that
entry: endpoint, keepalive, and the entry's prefixes and no others. -/
def Device.holds (d : Device) (pc : wgtypes.PeerConfig) : Prop :=
  (∃ p, d.Peers pc.PublicKey = some p ∧ p.Endpoint = pc.Endpoint ∧
      some p.PersistentKeepaliveInterval = pc.PersistentKeepaliveInterval) ∧
    ∀ n, d.AllowedIPs n = some pc.PublicKey ↔ n ∈ pc.AllowedIPs

/-- The live peer set of the device equals a peer list, as sets keyed by
public key: the same keys, and for each key the same endpoint, keepalive and
allowedIPs. -/
def Device.peersEqual (d : Device) (peers : List wgtypes.PeerConfig) : Prop :=
  (∀ k, d.hasPeer k = true ↔ k ∈ wgconf.keysOf peers) ∧ ∀ pc ∈ peers, d.holds pc

/-- The entry of key `k` in the peer map after an as-built peer-list entry is
applied, from the entry `c` before it: the preshared key stays, the endpoint and
the keepalive are those of the peer-list entry. -/
def cellPeer (k : wgtypes.Key) (c : Option DevicePeer) (pc : wgtypes.PeerConfig) :
    Option DevicePeer :=
  if k = pc.PublicKey then
    some { PresharedKey := c.bind (fun q => q.PresharedKey),
           Endpoint := pc.Endpoint,
           PersistentKeepaliveInterval := pc.PersistentKeepaliveInterval.getD 0 }
  else c

/-- The owner of prefix `n` after an as-built peer-list entry is applied, from
the owner `c` before it. -/
def cellOwner (n : net.IPNet) (c : Option wgtypes.Key) (pc : wgtypes.PeerConfig) :
    Option wgtypes.Key :=
  if n ∈ pc.AllowedIPs then some pc.PublicKey else c

/-- A device without peers. -/
def Device.noPeers (d : Device) : Prop :=
  (∀ k, d.Peers k = none) ∧ ∀ n, d.AllowedIPs n = none

end wgctrl

/-! ## A library instance

The theorems below hold for every `Lib`. To apply them to concrete peers, here
is one instance: keys in the canonical base64 form (44 characters, without line
breaks) and addresses in IPv4 dotted-quad form. -/

namespace sample

/-- The value of a character of the standard base64 alphabet. -/
def b64Value (c : Char) : Option Nat :=
  let n := c.toNat
  if 65 ≤ n ∧ n ≤ 90 then some (n - 65)
  else if 97 ≤ n ∧ n ≤ 122 then some (n - 71)
  else if 48 ≤ n ∧ n ≤ 57 then some (n + 4)
  else if n = 43 then some 62
  else if n = 47 then some 63
  else none

/-- Standard base64 decoding with padding, four characters at a time. -/
def b64Decode : List Char → Option (List Nat)
  | [] => some []
  | a :: b :: c :: d :: rest =>
    match b64Value a, b64Value b with
    | some x, some y =>
      if c.toNat = 61 ∧ d.toNat = 61 ∧ rest = [] then some [x * 4 + y / 16]
      else
        match b64Value c with
        | none => none
        | some z =>
          if d.toNat = 61 ∧ rest = [] then some [x * 4 + y / 16, y % 16 * 16 + z / 4]
          else
            match b64Value d, b64Decode rest with
            | some w, some tail =>
              some ((x * 4 + y / 16) :: (y % 16 * 16 + z / 4) :: (z % 4 * 64 + w) :: tail)
            | _, _ => none
    | _, _ => none
  | _ => none

/-- A key is the base64 form of exactly 32 bytes. -/
def ParseKey (s : String) : Option wgtypes.Key :=
  match b64Decode s.toList with
  | some bytes => if bytes.length = 32 then some { bytes := bytes } else none
  | none => none

/-- The pieces of a character list between occurrences of `sep`. -/
def splitAt (sep : Char) : List Char → List (List Char)
  | [] => [[]]
  | c :: cs =>
    if c = sep then [] :: splitAt sep cs
    else
      match splitAt sep cs with
      | [] => [[c]]
      | piece :: pieces => (c :: piece) :: pieces

/-- The number written by a list of decimal digits, after the digits `acc`. -/
def digits : List Char → Nat → Option Nat
  | [], acc => some acc
  | c :: cs, acc =>
    if 48 ≤ c.toNat ∧ c.toNat ≤ 57 then digits cs (acc * 10 + (c.toNat - 48)) else none

/-- A decimal number of one to three digits without a leading zero, at most
`bound`. -/
def number (bound : Nat) (cs : List Char) : Option Nat :=
  if cs = [] ∨ 3 < cs.length ∨ (1 < cs.length ∧ cs.head? = some (Char.ofNat 48)) then none
  else
    match digits cs 0 with
    | some n => if n ≤ bound then some n else none
    | none => none

/-- The four bytes of a dotted-quad IPv4 address. -/
def parseIPv4 (cs : List Char) : Option (List Nat) :=
  match splitAt (Char.ofNat 46) cs with
  | [a, b, c, d] =>
    match number 255 a, number 255 b, number 255 c, number 255 d with
    | some w, some x, some y, some z => some [w, x, y, z]
    | _, _, _, _ => none
  | _ => none

/-- As `net.ParseIP` on IPv4 text: the 16-byte form of the address, and nil
(the empty list) for anything else. -/
def ParseIP (s : String) : List Nat :=
  match parseIPv4 s.toList with
  | some bytes => [0, 0, 0, 0, 0, 0, 0, 0, 0, 0, 255, 255] ++ bytes
  | none => []

/-- Byte `i` of the IPv4 mask of a prefix of `n` bits. -/
def maskByte (n i : Nat) : Nat := 256 - 2 ^ (8 - min 8 (n - 8 * i))

/-- As `net.ParseCIDR` on IPv4 text `a.b.c.d/n`: the masked address and the
mask. -/
def ParseCIDR (s : String) : Option net.IPNet :=
  match splitAt (Char.ofNat 47) s.toList with
  | [addr, len] =>
    match parseIPv4 addr, number 32 len with
    | some [w, x, y, z], some n =>
      some { IP := [w &&& maskByte n 0, x &&& maskByte n 1, y &&& maskByte n 2, z &&& maskByte n 3],
             Mask := [maskByte n 0, maskByte n 1, maskByte n 2, maskByte n 3] }
    | _, _ => none
  | _ => none

/-- The library instance. -/
def lib : wgconf.Lib :=
  { ParseKey := ParseKey, ParseCIDR := ParseCIDR, ParseIP := ParseIP }

/-- `peerOne` of `client-peer/main.go`. -/
def peerOne : wgconf.Peer :=
  { PublicKey := "7M2y7SRmOo0NUkJBRl7Ol0OitPrv1+/Y79rKu6FaQkw=",
    Endpoint := { Host := "192.168.1.101", Port := 51820 },
    AllowedIPs := ["10.0.0.1/32"], KeepAlive := 25 }

/-- `peerTwo` of `client-peer/main.go`. -/
def peerTwo : wgconf.Peer :=
  { PublicKey := "6M2y7SRmOo0NUkJBRl7Ol0OitPrv1+/Y79rKu6FaQkw=",
    Endpoint := { Host := "192.168.1.101", Port := 51820 },
    AllowedIPs := ["10.0.0.2/32"], KeepAlive := 25 }

/-- `peerTree` of `client-peer/main.go`. -/
def peerTree : wgconf.Peer :=
  { PublicKey := "5M2y7SRmOo0NUkJBRl7Ol5OitPrv1+/Y79rKu6FaQkw=",
    Endpoint := { Host := "192.168.1.101", Port := 51820 },
    AllowedIPs := ["10.0.0.3/32"], KeepAlive := 25 }

end sample

/-! ## Sample states -/

namespace sample

/-- A service configured with `connectedPeers: {"alice": "bob"}`. -/
def config : server.Config :=
  { ListenAddr := "10.0.0.254", ListenPort := 51820, ControlPort := 8080, PrivateKey := "",
    ConnectedPeers := fun id => if id = "alice" then some "bob" else none }

/-- The server as `main` creates it: an empty registry. -/
def server0 : server.Server := { Config := config, Peers := fun _ => none }

/-- A registration of `alice`. -/
def alice : server.Peer :=
  { ID := "alice", Token := "mi-token-secreto", PublicKey := "PKA",
    Endpoint := { Host := "1.2.3.4", Port := 51820 } }

/-- A later registration of `alice` from another endpoint. -/
def aliceMoved : server.Peer :=
  { ID := "alice", Token := "mi-token-secreto", PublicKey := "PKA2",
    Endpoint := { Host := "9.9.9.9", Port := 4000 } }

/-- A registration of `bob`. -/
def bob : server.Peer :=
  { ID := "bob", Token := "mi-token-secreto", PublicKey := "PKB",
    Endpoint := { Host := "5.6.7.8", Port := 51820 } }

/-- A registration with the right token and the empty id (a body without an
`id` member decodes to it). -/
def anonymous : server.Peer :=
  { ID := "", Token := "mi-token-secreto", PublicKey := "PKX",
    Endpoint := { Host := "6.6.6.6", Port := 7000 } }

/-- A registration of `carol`, who has no entry in `connectedPeers`. -/
def carol : server.Peer :=
  { ID := "carol", Token := "mi-token-secreto", PublicKey := "PKC",
    Endpoint := { Host := "7.7.7.7", Port := 51820 } }

/-- A registration attempt with a wrong token. -/
def mallory : server.Peer :=
  { ID := "alice", Token := "guess", PublicKey := "PKM",
    Endpoint := { Host := "6.6.6.6", Port := 1 } }

/-- A network on which every request that is sent is answered 200. -/
def networkUp : server.PostCall → server.PostResult :=
  fun _ => server.PostResult.response 200

/-- A transport on which every post fails. -/
def postDown : server.PostCall → server.PostResult :=
  fun _ => server.PostResult.transportError "connection refused"

/-- The options of `client-peer/main.go`. -/
def options : List (wgconf.WireGuardTrun → wgconf.WireGuardTrun) :=
  [wgconf.WithInterfaceName "wg0",
   wgconf.WithInterfaceIp { IpAddr := "10.0.0.254", MaskAddr := 24 },
   wgconf.WithPrivateKey "gP69hmKxP01OXAikh/lD0tmNimDT+fLRCp0KkbxadWU="]

/-- The handle of `client-peer/main.go`. -/
def handle0 : wgconf.WireGuardTrun := wgconf.NewWireGuardTrun "generated" options

/-- The three peers of `client-peer/main.go`, in the order they are added. -/
def desired : List wgconf.Peer := [peerOne, peerTwo, peerTree]

/-- A peer whose second CIDR does not parse. -/
def peerBadCIDR : wgconf.Peer :=
  { PublicKey := "7M2y7SRmOo0NUkJBRl7Ol0OitPrv1+/Y79rKu6FaQkw=",
    Endpoint := { Host := "192.168.1.101", Port := 51820 },
    AllowedIPs := ["10.0.0.1/32", "10.0.0.300/32"], KeepAlive := 25 }

/-- A tunnel device without peers. -/
def device0 : wgctrl.Device :=
  { PrivateKey := none, ListenPort := 51820, FirewallMark := 0,
    Peers := fun _ => none, AllowedIPs := fun _ => none }

/-- A driver state with the one device `wg0`, without peers. -/
def driver0 : wgctrl.Driver :=
  { clientFails := false, devices := fun n => if n = "wg0" then some device0 else none }

/-- The handle after `AddPeer(peerOne)`. -/
def handleOne : wgconf.WireGuardTrun := (wgconf.AddPeer lib handle0 peerOne).1

/-- The driver state after `UpdateConfigInterfaceWgTrun` on `handleOne`. -/
def driverOne : wgctrl.Driver := (wgconf.UpdateConfigInterfaceWgTrun handleOne driver0).1

/-- The handle after `AddPeer(peerOne)` and `RemovePeer(peerOne.PublicKey)`. -/
def handleNone : wgconf.WireGuardTrun := (wgconf.RemovePeer lib handleOne peerOne.PublicKey).1

/-- The calls of `client-peer/main.go` on its handle, before the update. -/
def callsMain : List wgconf.Call :=
  [wgconf.Call.add peerOne, wgconf.Call.add peerTwo, wgconf.Call.add peerTree,
   wgconf.Call.remove peerTwo.PublicKey]

/-- The key of `peerTwo`. -/
def keyTwo : wgtypes.Key :=
  { bytes := [232, 205, 178, 237, 36, 102, 58, 141, 13, 82, 66, 65, 70, 94, 206, 151, 67, 162,
      180, 250, 239, 215, 239, 216, 239, 218, 202, 187, 161, 90, 66, 76] }

/-- The key of `peerOne`. -/
def keyOne : wgtypes.Key :=
  { bytes := [236, 205, 178, 237, 36, 102, 58, 141, 13, 82, 66, 65, 70, 94, 206, 151, 67, 162,
      180, 250, 239, 215, 239, 216, 239, 218, 202, 187, 161, 90, 66, 76] }

end sample

/-! ## The registration handler -/

namespace server

theorem mapSet_same {V : Type} (m : String → Option V) (k : String) (v : V) :
    mapSet m k v k = some v := by
  simp [mapSet]

theorem mapSet_other {V : Type} (m : String → Option V) (k j : String) (v : V) (h : j ≠ k) :
    mapSet m k v j = m j := by
  simp [mapSet, h]

theorem registerPeer_accepted (post : PostCall → PostResult) (s : Server) (peer : Peer)
    (hTok : peer.Token = secretToken) :
    (registerPeer post s (Except.ok peer)).server = { s with Peers := mapSet s.Peers peer.ID peer } ∧
    (registerPeer post s (Except.ok peer)).status = 200 ∧
    (registerPeer post s (Except.ok peer)).body =
      Body.json { ListenAddr := s.Config.ListenAddr, ListenPort := s.Config.ListenPort } ∧
    (registerPeer post s (Except.ok peer)).posts =
      (sendPeerInfo post { s with Peers := mapSet s.Peers peer.ID peer } peer.ID
        (mapGetString s.Config.ConnectedPeers peer.ID)).posts := by
  simp [registerPeer, hTok]

theorem sendPeerInfo_posts (post : PostCall → PostResult) (s : Server) (peerID targetPeerID : String)
    (peer targetPeer : Peer) (hp : s.Peers peerID = some peer)
    (ht : s.Peers targetPeerID = some targetPeer) :
    (sendPeerInfo post s peerID targetPeerID).posts =
      [{ url := connectURL targetPeer.Endpoint, contentType := "application/json",
         payload := peer }] := by
  simp only [sendPeerInfo, hp, ht]
  cases post { url := connectURL targetPeer.Endpoint, contentType := "application/json",
               payload := peer } with
  | transportError msg => rfl
  | response statusCode => by_cases h : statusCode = 200 <;> simp [h]

/-- C1: a `/register` request whose body decodes to a peer with a token other
than the secret is answered 401 Unauthorized, the server state (the registry
map `Peers` included) is exactly what it was, and no outbound post is issued. -/
theorem registerPeer_bad_token (post : PostCall → PostResult) (s : Server) (peer : Peer)
    (hTok : peer.Token ≠ secretToken) :
    (registerPeer post s (Except.ok peer)).status = 401 ∧
    (registerPeer post s (Except.ok peer)).server = s ∧
    (registerPeer post s (Except.ok peer)).server.Peers = s.Peers ∧
    (registerPeer post s (Except.ok peer)).posts = [] := by
  simp [registerPeer, hTok]

theorem registerPeer_bad_token_witness :
    sample.mallory.Token ≠ secretToken ∧
    ((registerPeer sample.postDown sample.server0 (Except.ok sample.mallory)).status = 401 ∧
     (registerPeer sample.postDown sample.server0 (Except.ok sample.mallory)).server = sample.server0 ∧
     (registerPeer sample.postDown sample.server0 (Except.ok sample.mallory)).server.Peers =
        sample.server0.Peers ∧
     (registerPeer sample.postDown sample.server0 (Except.ok sample.mallory)).posts = []) :=
  ⟨by decide, registerPeer_bad_token sample.postDown sample.server0 sample.mallory (by decide)⟩

/-- C2: after two accepted registrations with the same id, carrying `d1` and
then `d2`, the registry maps that id to `d2` (so to the endpoint and public key
of `d2`, whatever `d1` was), and the entry of every other id is the one the
registry had before the two registrations. Both are answered 200. -/
theorem registerPeer_last_write_wins (post : PostCall → PostResult) (s : Server) (d1 d2 : Peer)
    (hId : d1.ID = d2.ID) (hTok1 : d1.Token = secretToken) (hTok2 : d2.Token = secretToken) :
    (registerPeer post s (Except.ok d1)).status = 200 ∧
    (registerPeer post (registerPeer post s (Except.ok d1)).server (Except.ok d2)).status = 200 ∧
    (registerPeer post (registerPeer post s (Except.ok d1)).server (Except.ok d2)).server.Peers d2.ID
      = some d2 ∧
    ∀ other, other ≠ d2.ID →
      (registerPeer post (registerPeer post s (Except.ok d1)).server (Except.ok d2)).server.Peers other
        = s.Peers other := by
  have h1 := registerPeer_accepted post s d1 hTok1
  have h2 := registerPeer_accepted post (registerPeer post s (Except.ok d1)).server d2 hTok2
  refine ⟨h1.2.1, h2.2.1, ?_, ?_⟩
  · rw [h2.1]
    exact mapSet_same _ _ _
  · intro other hne
    rw [h2.1, h1.1]
    simp only
    rw [mapSet_other _ _ _ _ hne, mapSet_other _ _ _ _ (by rw [hId]; exact hne)]

theorem registerPeer_last_write_wins_witness :
    (sample.alice.ID = sample.aliceMoved.ID ∧ sample.alice.Endpoint ≠ sample.aliceMoved.Endpoint ∧
      sample.alice.Token = secretToken ∧ sample.aliceMoved.Token = secretToken) ∧
    ((registerPeer sample.postDown sample.server0 (Except.ok sample.alice)).status = 200 ∧
    (registerPeer sample.postDown
        (registerPeer sample.postDown sample.server0 (Except.ok sample.alice)).server
        (Except.ok sample.aliceMoved)).status = 200 ∧
    (registerPeer sample.postDown
        (registerPeer sample.postDown sample.server0 (Except.ok sample.alice)).server
        (Except.ok sample.aliceMoved)).server.Peers sample.aliceMoved.ID = some sample.aliceMoved ∧
    ∀ other, other ≠ sample.aliceMoved.ID →
      (registerPeer sample.postDown
        (registerPeer sample.postDown sample.server0 (Except.ok sample.alice)).server
        (Except.ok sample.aliceMoved)).server.Peers other = sample.server0.Peers other) :=
  ⟨by decide,
   registerPeer_last_write_wins sample.postDown sample.server0 sample.alice sample.aliceMoved
      (by decide) (by decide) (by decide)⟩

/-- The call `registerPeer` hands to `http.Post` when the counterpart id `c`
configured for the registrant `p` is in the registry: one call, with the URL
text `host:port/connect` of the endpoint registered for `c` and `p` as payload;
the answer to `p` is 200 with the listen address and port of the service
whatever `post` returns. -/
theorem registerPeer_post_call (post : PostCall → PostResult) (s : Server)
    (p t : Peer) (c : String) (hTok : p.Token = secretToken)
    (hc : s.Config.ConnectedPeers p.ID = some c) (ht : s.Peers c = some t) :
    ∃ target,
      (registerPeer post s (Except.ok p)).server.Peers c = some target ∧
      (c ≠ p.ID → target = t) ∧
      (registerPeer post s (Except.ok p)).posts =
        [{ url := target.Endpoint.Host ++ ":" ++ toString target.Endpoint.Port ++ "/connect",
           contentType := "application/json", payload := p }] ∧
      (registerPeer post s (Except.ok p)).status = 200 ∧
      (registerPeer post s (Except.ok p)).body =
        Body.json { ListenAddr := s.Config.ListenAddr, ListenPort := s.Config.ListenPort } := by
  have h := registerPeer_accepted post s p hTok
  have hget : mapGetString s.Config.ConnectedPeers p.ID = c := by simp [mapGetString, hc]
  by_cases hcp : c = p.ID
  · refine ⟨p, ?_, fun hne => absurd hcp hne, ?_, h.2.1, h.2.2.1⟩
    · rw [h.1, hcp]; exact mapSet_same _ _ _
    · rw [h.2.2.2, hget]
      exact sendPeerInfo_posts post _ p.ID c p p (mapSet_same _ _ _)
        (by rw [hcp]; exact mapSet_same _ _ _)
  · refine ⟨t, ?_, fun _ => rfl, ?_, h.2.1, h.2.2.1⟩
    · rw [h.1]; simp only; rw [mapSet_other _ _ _ _ hcp]; exact ht
    · rw [h.2.2.2, hget]
      exact sendPeerInfo_posts post _ p.ID c p t (mapSet_same _ _ _)
        (by simp only; rw [mapSet_other _ _ _ _ hcp]; exact ht)

theorem rejected_of_digit_first (c : Char) (cs : List Char)
    (hc : 48 ≤ c.toNat ∧ c.toNat ≤ 57) : ∃ msg, http.rejected (String.mk (c :: cs)) = some msg := by
  have hnl : ¬ ((97 ≤ c.toNat ∧ c.toNat ≤ 122) ∨ (65 ≤ c.toNat ∧ c.toNat ≤ 90)) := by omega
  have hscheme : http.getScheme (c :: cs) = Except.ok ([], c :: cs) := by
    simp only [http.getScheme, http.getSchemeLoop]
    rw [if_neg hnl, if_pos (Or.inl hc)]
    rfl
  have hlist : (String.mk (c :: cs)).toList = c :: cs := rfl
  unfold http.rejected
  rw [hlist, hscheme]
  simp only [if_true]
  split
  · exact ⟨_, rfl⟩
  · exact ⟨_, rfl⟩

/-- A counterpart registered with a host that starts with a digit (an IPv4
address) gets no push from any network: `http.Post` returns an error for the
URL text `sendPeerInfo` builds, before anything is sent. -/
theorem Post_to_numeric_host_fails (network : PostCall → PostResult) (call : PostCall)
    (e : wgconf.Endpoint) (c : Char) (cs : List Char) (hurl : call.url = connectURL e)
    (hhost : e.Host.data = c :: cs) (hc : 48 ≤ c.toNat ∧ c.toNat ≤ 57) :
    ∃ msg, http.Post network call = PostResult.transportError msg := by
  have hdata : (connectURL e).data = c :: (cs ++ (":" ++ toString e.Port ++ "/connect").data) := by
    simp only [connectURL, String.data_append, hhost, List.cons_append, List.append_assoc]
  have hmk : connectURL e = String.mk (c :: (cs ++ (":" ++ toString e.Port ++ "/connect").data)) := by
    rw [← hdata]
  obtain ⟨msg, hmsg⟩ := rejected_of_digit_first c (cs ++ (":" ++ toString e.Port ++ "/connect").data) hc
  refine ⟨msg, ?_⟩
  unfold http.Post
  rw [hurl, hmk, hmsg]

/-- C9 (the code at a failing input): with `connectedPeers` mapping `alice` to
`bob` and `bob` registered with endpoint 5.6.7.8:51820, the accepted
registration of `alice` is answered 200 and makes one call of `http.Post`, with
`alice` as payload and the URL text `5.6.7.8:51820/connect`. That text has no
scheme; `http.Post` returns an error for it before anything is sent, also on a
network that answers every request, and the handler only logs the failure: no
push reaches the endpoint of `bob`. -/
theorem registerPeer_push_not_sent :
    sample.config.ConnectedPeers sample.alice.ID = some "bob" ∧
    (registerPeer (http.Post sample.networkUp) sample.server0 (Except.ok sample.bob)).server.Peers
      "bob" = some sample.bob ∧
    (registerPeer (http.Post sample.networkUp)
        (registerPeer (http.Post sample.networkUp) sample.server0 (Except.ok sample.bob)).server
        (Except.ok sample.alice)).status = 200 ∧
    (registerPeer (http.Post sample.networkUp)
        (registerPeer (http.Post sample.networkUp) sample.server0 (Except.ok sample.bob)).server
        (Except.ok sample.alice)).posts =
      [{ url := "5.6.7.8:51820/connect", contentType := "application/json",
         payload := sample.alice }] ∧
    http.rejected "5.6.7.8:51820/connect"
      = some "first path segment in URL cannot contain colon" ∧
    http.Post sample.networkUp
        { url := "5.6.7.8:51820/connect", contentType := "application/json",
          payload := sample.alice }
      = PostResult.transportError "first path segment in URL cannot contain colon" ∧
    (registerPeer (http.Post sample.networkUp)
        (registerPeer (http.Post sample.networkUp) sample.server0 (Except.ok sample.bob)).server
        (Except.ok sample.alice)).logs =
      [LogLine.postFailed "first path segment in URL cannot contain colon"] := by
  decide

/-- C10 (the code at a failing input): `carol` has no entry in
`connectedPeers`, and a peer with the empty id is registered; the accepted
registration of `carol` issues an outbound post, to the endpoint of the peer
with the empty id, carrying the registration of `carol`. -/
theorem registerPeer_unmapped_pushes_to_empty_id :
    sample.config.ConnectedPeers sample.carol.ID = none ∧
    (registerPeer sample.postDown sample.server0 (Except.ok sample.anonymous)).status = 200 ∧
    (registerPeer sample.postDown
        (registerPeer sample.postDown sample.server0 (Except.ok sample.anonymous)).server
        (Except.ok sample.carol)).posts =
      [{ url := "6.6.6.6:7000/connect", contentType := "application/json",
         payload := sample.carol }] := by
  decide

end server

/-! ## The peer list of a handle -/

namespace wgconf

theorem parseAllowedIPs_eq_none (L : Lib) (ips : List String) (ip : String) (hmem : ip ∈ ips)
    (hbad : L.ParseCIDR ip = none) (acc : List net.IPNet) : parseAllowedIPs L ips acc = none := by
  induction ips generalizing acc with
  | nil => cases hmem
  | cons first rest ih =>
    simp only [parseAllowedIPs]
    rcases List.mem_cons.mp hmem with h | h
    · subst h; rw [hbad]
    · cases L.ParseCIDR first with
      | none => rfl
      | some ipnet => exact ih h _

theorem parseAllowedIPs_eq_some (L : Lib) (ips : List String)
    (hgood : ∀ ip ∈ ips, (L.ParseCIDR ip).isSome = true) (acc : List net.IPNet) :
    parseAllowedIPs L ips acc = some (acc ++ ips.filterMap L.ParseCIDR) := by
  induction ips generalizing acc with
  | nil => simp [parseAllowedIPs]
  | cons first rest ih =>
    have hfirst := hgood first (List.mem_cons_self _ _)
    cases hp : L.ParseCIDR first with
    | none => rw [hp] at hfirst; cases hfirst
    | some ipnet =>
      simp only [parseAllowedIPs, hp, List.filterMap_cons]
      rw [ih (fun ip h => hgood ip (List.mem_cons_of_mem _ h))]
      simp

theorem AddPeer_eq (L : Lib) (wg : WireGuardTrun) (peer : Peer) :
    AddPeer L wg peer =
      match peerConfigOf L peer with
      | some pc => ({ wg with cfg := { wg.cfg with Peers := wg.cfg.Peers ++ [pc] } }, none)
      | none =>
        (wg, some (if L.ParseKey peer.PublicKey = none then WgError.parsePeerKey
                   else WgError.parseAllowedIPs)) := by
  unfold AddPeer peerConfigOf
  cases L.ParseKey peer.PublicKey with
  | none => rfl
  | some k =>
    cases parseAllowedIPs L peer.AllowedIPs [] with
    | none => simp
    | some ips => rfl

theorem AddPeer_peers (L : Lib) (wg : WireGuardTrun) (peer : Peer) :
    (AddPeer L wg peer).1 =
      { wg with cfg := { wg.cfg with Peers := wg.cfg.Peers ++ peerConfigsOf L [peer] } } := by
  rw [AddPeer_eq]
  cases h : peerConfigOf L peer <;> simp [peerConfigsOf, h]

theorem addPeers_eq (L : Lib) (wg : WireGuardTrun) (peers : List Peer) :
    addPeers L wg peers =
      { wg with cfg := { wg.cfg with Peers := wg.cfg.Peers ++ peerConfigsOf L peers } } := by
  induction peers generalizing wg with
  | nil => simp [addPeers, peerConfigsOf]
  | cons p rest ih =>
    have hstep : addPeers L wg (p :: rest) = addPeers L (AddPeer L wg p).1 rest := rfl
    rw [hstep, ih, AddPeer_peers]
    simp only [peerConfigsOf, List.filterMap_cons, List.filterMap_nil, List.append_assoc]
    cases peerConfigOf L p <;> simp

theorem findPeerIndex_eq_none (k : wgtypes.Key) (peers : List wgtypes.PeerConfig)
    (h : k ∉ keysOf peers) : findPeerIndex k peers = none := by
  induction peers with
  | nil => rfl
  | cons p rest ih =>
    simp only [keysOf, List.map_cons, List.mem_cons, not_or] at h
    simp only [findPeerIndex]
    rw [if_neg (fun e => h.1 e.symm), ih (by simpa [keysOf] using h.2)]
    rfl

theorem findPeerIndex_isSome (k : wgtypes.Key) (peers : List wgtypes.PeerConfig)
    (h : k ∈ keysOf peers) : ∃ i, findPeerIndex k peers = some i := by
  induction peers with
  | nil => simp [keysOf] at h
  | cons p rest ih =>
    simp only [findPeerIndex]
    by_cases hk : p.PublicKey = k
    · exact ⟨0, by rw [if_pos hk]⟩
    · have hrest : k ∈ keysOf rest := by
        simp only [keysOf, List.map_cons, List.mem_cons] at h
        rcases h with h | h
        · exact absurd h.symm hk
        · exact h
      obtain ⟨i, hi⟩ := ih hrest
      exact ⟨i + 1, by rw [if_neg hk, hi]; rfl⟩

theorem findPeerIndex_sublist (k : wgtypes.Key) (peers : List wgtypes.PeerConfig) (i : Nat)
    (_h : findPeerIndex k peers = some i) :
    (peers.take i ++ peers.drop (i + 1)).Sublist peers := by
  have h1 : (peers.take i ++ peers.drop (i + 1)).Sublist (peers.take i ++ peers.drop i) :=
    List.Sublist.append (List.Sublist.refl _)
      (by rw [← List.drop_drop 1 i peers]; exact List.drop_sublist _ _)
  simpa using h1

theorem findPeerIndex_filter (k : wgtypes.Key) (peers : List wgtypes.PeerConfig) (i : Nat)
    (hnodup : (keysOf peers).Nodup) (h : findPeerIndex k peers = some i) :
    peers.take i ++ peers.drop (i + 1) = peers.filter (fun p => p.PublicKey ≠ k) := by
  induction peers generalizing i with
  | nil => simp [findPeerIndex] at h
  | cons p rest ih =>
    simp only [keysOf, List.map_cons, List.nodup_cons] at hnodup
    simp only [findPeerIndex] at h
    by_cases hk : p.PublicKey = k
    · rw [if_pos hk] at h
      cases h
      have hall : ∀ q ∈ rest, q.PublicKey ≠ k := by
        intro q hq e
        exact hnodup.1 (List.mem_map.mpr ⟨q, hq, by rw [e, hk]⟩)
      simp only [List.take_zero, List.nil_append, zero_add, List.drop_succ_cons, List.drop_zero]
      rw [List.filter_cons_of_neg (by simpa using hk)]
      exact (List.filter_eq_self.mpr (by simpa using hall)).symm
    · rw [if_neg hk] at h
      cases hf : findPeerIndex k rest with
      | none => rw [hf] at h; cases h
      | some j =>
        rw [hf] at h
        cases h
        rw [List.filter_cons_of_pos (by simpa using hk)]
        simp only [List.take_succ_cons, List.drop_succ_cons, List.cons_append]
        rw [ih j hnodup.2 hf]

end wgconf

namespace wgconf

theorem peerConfigOf_key (L : Lib) (peer : Peer) (pc : wgtypes.PeerConfig)
    (h : peerConfigOf L peer = some pc) : L.ParseKey peer.PublicKey = some pc.PublicKey := by
  unfold peerConfigOf at h
  cases hk : L.ParseKey peer.PublicKey with
  | none => rw [hk] at h; cases h
  | some k =>
    cases hi : parseAllowedIPs L peer.AllowedIPs [] with
    | none => rw [hk, hi] at h; cases h
    | some ips => rw [hk, hi] at h; cases h; rfl

theorem peerConfigsOf_filter (L : Lib) (peers : List Peer) (P : Peer) (kP : wgtypes.Key)
    (hP : L.ParseKey P.PublicKey = some kP)
    (hvalid : ∀ p ∈ peers, validPeer L p = true)
    (hinj : ∀ p ∈ peers, L.ParseKey p.PublicKey = some kP → p = P) :
    (peerConfigsOf L peers).filter (fun pc => pc.PublicKey ≠ kP) =
      peerConfigsOf L (peers.filter (fun p => p ≠ P)) := by
  induction peers with
  | nil => rfl
  | cons p rest ih =>
    have ihr := ih (fun q hq => hvalid q (List.mem_cons_of_mem _ hq))
      (fun q hq => hinj q (List.mem_cons_of_mem _ hq))
    have hv := hvalid p (List.mem_cons_self _ _)
    unfold validPeer at hv
    cases hpc : peerConfigOf L p with
    | none => rw [hpc] at hv; cases hv
    | some pc =>
      have hkey := peerConfigOf_key L p pc hpc
      by_cases hpP : p = P
      · have hk : pc.PublicKey = kP := by
          rw [hpP, hP] at hkey; exact (Option.some.inj hkey).symm
        rw [List.filter_cons_of_neg (by simpa using hpP)]
        simp only [peerConfigsOf, List.filterMap_cons, hpc]
        rw [List.filter_cons_of_neg (by simpa using hk)]
        exact ihr
      · have hk : pc.PublicKey ≠ kP := by
          intro e
          exact hpP (hinj p (List.mem_cons_self _ _) (by rw [hkey, e]))
        rw [List.filter_cons_of_pos (by simpa using hpP)]
        simp only [peerConfigsOf, List.filterMap_cons, hpc]
        rw [List.filter_cons_of_pos (by simpa using hk)]
        exact congrArg _ ihr

theorem keysOf_peerConfigsOf (L : Lib) (peers : List Peer)
    (hvalid : ∀ p ∈ peers, validPeer L p = true) :
    (keysOf (peerConfigsOf L peers)).map some = peers.map (fun p => L.ParseKey p.PublicKey) := by
  induction peers with
  | nil => rfl
  | cons p rest ih =>
    have hv := hvalid p (List.mem_cons_self _ _)
    unfold validPeer at hv
    cases hpc : peerConfigOf L p with
    | none => rw [hpc] at hv; cases hv
    | some pc =>
      have hkey := peerConfigOf_key L p pc hpc
      simp only [peerConfigsOf, List.filterMap_cons, hpc, keysOf, List.map_cons, hkey]
      exact congrArg _ (ih (fun q hq => hvalid q (List.mem_cons_of_mem _ hq)))

theorem keysOf_nodup (L : Lib) (peers : List Peer)
    (hvalid : ∀ p ∈ peers, validPeer L p = true)
    (hnodup : (peers.map (fun p => L.ParseKey p.PublicKey)).Nodup) :
    (keysOf (peerConfigsOf L peers)).Nodup := by
  rw [← keysOf_peerConfigsOf L peers hvalid] at hnodup
  exact List.Nodup.of_map _ hnodup

theorem options_keep_cfg (options : List (WireGuardTrun → WireGuardTrun))
    (hopt : ∀ opt ∈ options, IsPackageOption opt) (wg : WireGuardTrun) :
    (options.foldl (fun w opt => opt w) wg).cfg = wg.cfg := by
  induction options generalizing wg with
  | nil => rfl
  | cons opt rest ih =>
    simp only [List.foldl_cons]
    rw [ih (fun o ho => hopt o (List.mem_cons_of_mem _ ho))]
    rcases hopt opt (List.mem_cons_self _ _) with ⟨x, hx⟩ | ⟨x, hx⟩ | ⟨x, hx⟩ | ⟨x, hx⟩ <;>
      (subst hx; rfl)

theorem NewWireGuardTrun_cfg (generated : String) (options : List (WireGuardTrun → WireGuardTrun))
    (hopt : ∀ opt ∈ options, IsPackageOption opt) :
    (NewWireGuardTrun generated options).cfg = {} := by
  unfold NewWireGuardTrun
  simp only
  split
  · simp only; rw [options_keep_cfg options hopt]
  · rw [options_keep_cfg options hopt]

/-- C5: on a fresh handle, after `AddPeer` of each peer of a list `D1` of
valid peers with pairwise distinct keys, `RemovePeer` with the key of a peer
`P` of `D1` returns no error and the peer list is `D1` without `P`: the entries
`AddPeer` builds for the other peers of `D1`, in the order of `D1` (same key,
endpoint, allowedIPs and keepalive), and no entry with the key of `P`; no other
field of the handle changes. -/
theorem RemovePeer_after_addPeers (L : Lib) (generated : String)
    (options : List (WireGuardTrun → WireGuardTrun)) (D1 : List Peer) (P : Peer)
    (hopt : ∀ opt ∈ options, IsPackageOption opt)
    (hvalid : ∀ p ∈ D1, validPeer L p = true)
    (hnodup : (D1.map (fun p => L.ParseKey p.PublicKey)).Nodup)
    (hP : P ∈ D1) :
    (addPeers L (NewWireGuardTrun generated options) D1).cfg.Peers = peerConfigsOf L D1 ∧
    (RemovePeer L (addPeers L (NewWireGuardTrun generated options) D1) P.PublicKey).2 = none ∧
    (RemovePeer L (addPeers L (NewWireGuardTrun generated options) D1) P.PublicKey).1 =
      { addPeers L (NewWireGuardTrun generated options) D1 with
        cfg := { (addPeers L (NewWireGuardTrun generated options) D1).cfg with
                 Peers := peerConfigsOf L (D1.filter (fun p => p ≠ P)) } } ∧
    (∀ pc ∈ peerConfigsOf L (D1.filter (fun p => p ≠ P)),
      some pc.PublicKey ≠ L.ParseKey P.PublicKey) ∧
    ∀ p ∈ D1, p ≠ P → ∃ pc, peerConfigOf L p = some pc ∧
      pc ∈ peerConfigsOf L (D1.filter (fun p => p ≠ P)) := by
  have hcfg := NewWireGuardTrun_cfg generated options hopt
  have hpeers : (addPeers L (NewWireGuardTrun generated options) D1).cfg.Peers
      = peerConfigsOf L D1 := by
    rw [addPeers_eq]; simp [hcfg]
  have hvP := hvalid P hP
  unfold validPeer at hvP
  obtain ⟨pcP, hpcP⟩ := Option.isSome_iff_exists.mp hvP
  have hkP := peerConfigOf_key L P pcP hpcP
  have hinj : ∀ p ∈ D1, L.ParseKey p.PublicKey = some pcP.PublicKey → p = P := by
    intro p hp e
    exact List.inj_on_of_nodup_map hnodup hp hP (by rw [e, hkP])
  have hfilter := peerConfigsOf_filter L D1 P pcP.PublicKey hkP hvalid hinj
  have hkn := keysOf_nodup L D1 hvalid hnodup
  have hmem : pcP.PublicKey ∈ keysOf (peerConfigsOf L D1) :=
    List.mem_map.mpr ⟨pcP, List.mem_filterMap.mpr ⟨P, hP, hpcP⟩, rfl⟩
  obtain ⟨i, hi⟩ := findPeerIndex_isSome _ _ hmem
  have hrem : RemovePeer L (addPeers L (NewWireGuardTrun generated options) D1) P.PublicKey =
      ({ addPeers L (NewWireGuardTrun generated options) D1 with
        cfg := { (addPeers L (NewWireGuardTrun generated options) D1).cfg with
                 Peers := peerConfigsOf L (D1.filter (fun p => p ≠ P)) } }, none) := by
    unfold RemovePeer
    simp only [hkP, hpeers, hi]
    rw [findPeerIndex_filter _ _ _ hkn hi, hfilter]
  refine ⟨hpeers, by rw [hrem], by rw [hrem], ?_, ?_⟩
  · intro pc hpc e
    rw [← hfilter] at hpc
    have := (List.mem_filter.mp hpc).2
    rw [hkP] at e
    simp [Option.some.inj e] at this
  · intro p hp hne
    have hv := hvalid p hp
    unfold validPeer at hv
    obtain ⟨pc, hpc⟩ := Option.isSome_iff_exists.mp hv
    exact ⟨pc, hpc, List.mem_filterMap.mpr ⟨p, List.mem_filter.mpr ⟨hp, by simpa using hne⟩, hpc⟩⟩

end wgconf

namespace wgconf

theorem sample_options_are_package_options : ∀ opt ∈ sample.options, IsPackageOption opt := by
  intro opt h
  simp only [sample.options, List.mem_cons, List.mem_singleton, List.mem_nil_iff, or_false] at h
  rcases h with h | h | h
  · exact Or.inl ⟨_, h⟩
  · exact Or.inr (Or.inr (Or.inr ⟨_, h⟩))
  · exact Or.inr (Or.inl ⟨_, h⟩)

theorem RemovePeer_after_addPeers_witness :
    ((∀ opt ∈ sample.options, IsPackageOption opt) ∧
      (∀ p ∈ sample.desired, validPeer sample.lib p = true) ∧
      (sample.desired.map (fun p => sample.lib.ParseKey p.PublicKey)).Nodup ∧
      sample.peerTwo ∈ sample.desired) ∧
    ((addPeers sample.lib (NewWireGuardTrun "generated" sample.options) sample.desired).cfg.Peers
        = peerConfigsOf sample.lib sample.desired ∧
    (RemovePeer sample.lib
        (addPeers sample.lib (NewWireGuardTrun "generated" sample.options) sample.desired)
        sample.peerTwo.PublicKey).2 = none ∧
    (RemovePeer sample.lib
        (addPeers sample.lib (NewWireGuardTrun "generated" sample.options) sample.desired)
        sample.peerTwo.PublicKey).1 =
      { addPeers sample.lib (NewWireGuardTrun "generated" sample.options) sample.desired with
        cfg := { (addPeers sample.lib (NewWireGuardTrun "generated" sample.options)
                    sample.desired).cfg with
                 Peers := peerConfigsOf sample.lib
                    (sample.desired.filter (fun p => p ≠ sample.peerTwo)) } } ∧
    (∀ pc ∈ peerConfigsOf sample.lib (sample.desired.filter (fun p => p ≠ sample.peerTwo)),
      some pc.PublicKey ≠ sample.lib.ParseKey sample.peerTwo.PublicKey) ∧
    ∀ p ∈ sample.desired, p ≠ sample.peerTwo → ∃ pc, peerConfigOf sample.lib p = some pc ∧
      pc ∈ peerConfigsOf sample.lib (sample.desired.filter (fun p => p ≠ sample.peerTwo))) :=
  ⟨⟨sample_options_are_package_options, by decide, by decide, by decide⟩,
   RemovePeer_after_addPeers sample.lib "generated" sample.options sample.desired sample.peerTwo
     sample_options_are_package_options (by decide) (by decide) (by decide)⟩

/-- C6: `RemovePeer` with a key that parses and is the key of no entry of the
peer list returns the not-found error and leaves the handle as it was, the
peer list and every other field. -/
theorem RemovePeer_not_found (L : Lib) (wg : WireGuardTrun) (peerPublicKey : String)
    (k : wgtypes.Key) (hparse : L.ParseKey peerPublicKey = some k)
    (habsent : ∀ p ∈ wg.cfg.Peers, p.PublicKey ≠ k) :
    (RemovePeer L wg peerPublicKey).2 = some (WgError.peerNotFound peerPublicKey) ∧
    (RemovePeer L wg peerPublicKey).1 = wg ∧
    (RemovePeer L wg peerPublicKey).1.cfg.Peers = wg.cfg.Peers := by
  have hk : k ∉ keysOf wg.cfg.Peers := by
    intro hmem
    obtain ⟨p, hp, e⟩ := List.mem_map.mp hmem
    exact habsent p hp e
  have hrem : RemovePeer L wg peerPublicKey = (wg, some (WgError.peerNotFound peerPublicKey)) := by
    unfold RemovePeer
    simp only [hparse, findPeerIndex_eq_none k _ hk]
  rw [hrem]
  exact ⟨rfl, rfl, rfl⟩

theorem RemovePeer_not_found_witness :
    (sample.lib.ParseKey sample.peerTwo.PublicKey = some sample.keyTwo ∧
      ∀ p ∈ (AddPeer sample.lib sample.handle0 sample.peerOne).1.cfg.Peers, p.PublicKey ≠ sample.keyTwo) ∧
    ((RemovePeer sample.lib (AddPeer sample.lib sample.handle0 sample.peerOne).1
        sample.peerTwo.PublicKey).2 = some (WgError.peerNotFound sample.peerTwo.PublicKey) ∧
    (RemovePeer sample.lib (AddPeer sample.lib sample.handle0 sample.peerOne).1
        sample.peerTwo.PublicKey).1 = (AddPeer sample.lib sample.handle0 sample.peerOne).1 ∧
    (RemovePeer sample.lib (AddPeer sample.lib sample.handle0 sample.peerOne).1
        sample.peerTwo.PublicKey).1.cfg.Peers
      = (AddPeer sample.lib sample.handle0 sample.peerOne).1.cfg.Peers) :=
  ⟨by decide,
   RemovePeer_not_found sample.lib (AddPeer sample.lib sample.handle0 sample.peerOne).1
     sample.peerTwo.PublicKey sample.keyTwo (by decide) (by decide)⟩

/-- C8: `AddPeer` of a peer whose public key does not parse, or one of whose
allowedIPs entries does not parse as a CIDR (whatever the entries before it),
returns an error and leaves the handle as it was; `AddPeer` of a valid peer
right after it returns no error and appends exactly the entry of that peer to
the peer list. -/
theorem AddPeer_bad_then_good (L : Lib) (wg : WireGuardTrun) (bad good : Peer)
    (k : wgtypes.Key)
    (hbad : L.ParseKey bad.PublicKey = none ∨ ∃ ip ∈ bad.AllowedIPs, L.ParseCIDR ip = none)
    (hkey : L.ParseKey good.PublicKey = some k)
    (hips : ∀ ip ∈ good.AllowedIPs, (L.ParseCIDR ip).isSome = true) :
    (AddPeer L wg bad).2 ≠ none ∧
    (AddPeer L wg bad).1 = wg ∧
    (AddPeer L (AddPeer L wg bad).1 good).2 = none ∧
    (AddPeer L (AddPeer L wg bad).1 good).1 =
      { wg with cfg := { wg.cfg with Peers := wg.cfg.Peers ++
          [{ PublicKey := k,
             Endpoint := some { IP := L.ParseIP good.Endpoint.Host, Port := good.Endpoint.Port },
             AllowedIPs := good.AllowedIPs.filterMap L.ParseCIDR,
             PersistentKeepaliveInterval := some (time.seconds good.KeepAlive) }] } } := by
  have hb : (AddPeer L wg bad).2 ≠ none ∧ (AddPeer L wg bad).1 = wg := by
    unfold AddPeer
    rcases hbad with h | ⟨ip, hmem, h⟩
    · rw [h]; exact ⟨by simp, rfl⟩
    · cases L.ParseKey bad.PublicKey with
      | none => exact ⟨by simp, rfl⟩
      | some kb =>
        rw [parseAllowedIPs_eq_none L bad.AllowedIPs ip hmem h []]
        exact ⟨by simp, rfl⟩
  refine ⟨hb.1, hb.2, ?_, ?_⟩ <;>
  · rw [hb.2]
    unfold AddPeer
    simp only [hkey, parseAllowedIPs_eq_some L good.AllowedIPs hips [], List.nil_append]

theorem AddPeer_bad_then_good_witness :
    ((sample.lib.ParseKey sample.peerBadCIDR.PublicKey = none ∨
        ∃ ip ∈ sample.peerBadCIDR.AllowedIPs, sample.lib.ParseCIDR ip = none) ∧
      sample.lib.ParseKey sample.peerTwo.PublicKey = some sample.keyTwo ∧
      ∀ ip ∈ sample.peerTwo.AllowedIPs, (sample.lib.ParseCIDR ip).isSome = true) ∧
    ((AddPeer sample.lib sample.handle0 sample.peerBadCIDR).2 ≠ none ∧
    (AddPeer sample.lib sample.handle0 sample.peerBadCIDR).1 = sample.handle0 ∧
    (AddPeer sample.lib (AddPeer sample.lib sample.handle0 sample.peerBadCIDR).1 sample.peerTwo).2
      = none ∧
    (AddPeer sample.lib (AddPeer sample.lib sample.handle0 sample.peerBadCIDR).1 sample.peerTwo).1 =
      { sample.handle0 with cfg := { sample.handle0.cfg with Peers := sample.handle0.cfg.Peers ++
          [{ PublicKey := sample.keyTwo,
             Endpoint := some { IP := sample.lib.ParseIP sample.peerTwo.Endpoint.Host,
                                Port := sample.peerTwo.Endpoint.Port },
             AllowedIPs := sample.peerTwo.AllowedIPs.filterMap sample.lib.ParseCIDR,
             PersistentKeepaliveInterval := some (time.seconds sample.peerTwo.KeepAlive) }] } }) :=
  ⟨by decide,
   AddPeer_bad_then_good sample.lib sample.handle0 sample.peerBadCIDR sample.peerTwo sample.keyTwo
     (by decide) (by decide) (by decide)⟩

end wgconf

namespace wgconf

theorem RemovePeer_sublist (L : Lib) (wg : WireGuardTrun) (peerPublicKey : String) :
    (RemovePeer L wg peerPublicKey).1.cfg.Peers.Sublist wg.cfg.Peers := by
  unfold RemovePeer
  cases L.ParseKey peerPublicKey with
  | none => exact List.Sublist.refl _
  | some k =>
    cases h : findPeerIndex k wg.cfg.Peers with
    | none => simp only [h]; exact List.Sublist.refl _
    | some i => simp only [h]; exact findPeerIndex_sublist k _ i h

theorem RemovePeer_nodup (L : Lib) (wg : WireGuardTrun) (peerPublicKey : String)
    (h : (keysOf wg.cfg.Peers).Nodup) :
    (keysOf (RemovePeer L wg peerPublicKey).1.cfg.Peers).Nodup :=
  List.Nodup.sublist (List.Sublist.map _ (RemovePeer_sublist L wg peerPublicKey)) h

theorem AddPeer_nodup (L : Lib) (wg : WireGuardTrun) (peer : Peer)
    (h : (keysOf wg.cfg.Peers).Nodup)
    (hnew : ∀ k, L.ParseKey peer.PublicKey = some k → k ∉ keysOf wg.cfg.Peers) :
    (keysOf (AddPeer L wg peer).1.cfg.Peers).Nodup := by
  rw [AddPeer_eq]
  cases hpc : peerConfigOf L peer with
  | none => exact h
  | some pc =>
    have hk := hnew pc.PublicKey (peerConfigOf_key L peer pc hpc)
    simp only [keysOf, List.map_append, List.map_cons, List.map_nil]
    rw [List.nodup_append]
    refine ⟨h, List.nodup_singleton _, ?_⟩
    intro a ha hb
    rw [List.mem_singleton] at hb
    subst hb
    exact hk ha

theorem nodup_after_calls (L : Lib) (calls : List Call) (wg : WireGuardTrun)
    (h : (keysOf wg.cfg.Peers).Nodup) (hnew : addsAreNew L wg calls = true) :
    (keysOf (runCalls L wg calls).cfg.Peers).Nodup := by
  induction calls generalizing wg with
  | nil => exact h
  | cons call rest ih =>
    cases call with
    | add peer =>
      simp only [addsAreNew, Bool.and_eq_true] at hnew
      refine ih (runCall L wg (Call.add peer)) (AddPeer_nodup L wg peer h ?_) hnew.2
      intro k hk
      have h1 := hnew.1
      rw [hk] at h1
      simpa using h1
    | remove key =>
      simp only [addsAreNew] at hnew
      exact ih (runCall L wg (Call.remove key)) (RemovePeer_nodup L wg key h) hnew

/-- C7 (as stated, at a concrete input): after `AddPeer` of `peerOne` twice on
the handle `NewWireGuardTrun` returns, both calls return no error and the peer
list holds two entries with the key of `peerOne`. -/
theorem runCalls_duplicate_key :
    (AddPeer sample.lib sample.handle0 sample.peerOne).2 = none ∧
    (AddPeer sample.lib (AddPeer sample.lib sample.handle0 sample.peerOne).1 sample.peerOne).2
      = none ∧
    keysOf (runCalls sample.lib (NewWireGuardTrun "generated" sample.options)
      [Call.add sample.peerOne, Call.add sample.peerOne]).cfg.Peers
      = [sample.keyOne, sample.keyOne] ∧
    ¬ (keysOf (runCalls sample.lib (NewWireGuardTrun "generated" sample.options)
      [Call.add sample.peerOne, Call.add sample.peerOne]).cfg.Peers).Nodup := by
  decide

/-- C7 (amended): in every handle state reached from `NewWireGuardTrun` by a
sequence of `AddPeer` and `RemovePeer` calls in which no `AddPeer` is given a
key that the peer list holds at the moment of the call, the peer list has no
two entries with the same public key. -/
theorem runCalls_nodup (L : Lib) (generated : String)
    (options : List (WireGuardTrun → WireGuardTrun)) (calls : List Call)
    (hopt : ∀ opt ∈ options, IsPackageOption opt)
    (hnew : addsAreNew L (NewWireGuardTrun generated options) calls = true) :
    (keysOf (runCalls L (NewWireGuardTrun generated options) calls).cfg.Peers).Nodup := by
  refine nodup_after_calls L calls _ ?_ hnew
  rw [NewWireGuardTrun_cfg generated options hopt]
  exact List.nodup_nil

theorem runCalls_nodup_witness :
    ((∀ opt ∈ sample.options, IsPackageOption opt) ∧
      addsAreNew sample.lib (NewWireGuardTrun "generated" sample.options)
        [Call.add sample.peerOne, Call.add sample.peerTwo, Call.add sample.peerTree,
         Call.remove sample.peerTwo.PublicKey, Call.add sample.peerTwo] = true) ∧
    (keysOf (runCalls sample.lib (NewWireGuardTrun "generated" sample.options)
        [Call.add sample.peerOne, Call.add sample.peerTwo, Call.add sample.peerTree,
         Call.remove sample.peerTwo.PublicKey, Call.add sample.peerTwo]).cfg.Peers).Nodup :=
  ⟨⟨sample_options_are_package_options, by decide⟩,
   runCalls_nodup sample.lib "generated" sample.options _ sample_options_are_package_options
     (by decide)⟩

end wgconf

/-! ## The device after an update -/

namespace wgctrl

open wgconf

theorem foldl_setAllowedIP (k : wgtypes.Key) (ips : List net.IPNet)
    (t : net.IPNet → Option wgtypes.Key) (n : net.IPNet) :
    ips.foldl (setAllowedIP k) t n = if n ∈ ips then some k else t n := by
  induction ips generalizing t with
  | nil => simp
  | cons ip rest ih =>
    simp only [List.foldl_cons, ih, List.mem_cons]
    by_cases h1 : n ∈ rest
    · simp [h1]
    · by_cases h2 : n = ip <;> simp [h1, h2, setAllowedIP]

theorem configurePeer_asBuilt (d : Device) (pc : wgtypes.PeerConfig) (h : AsBuilt pc) :
    ∃ p, p.Endpoint = pc.Endpoint ∧ some p.PersistentKeepaliveInterval
          = pc.PersistentKeepaliveInterval ∧
      configurePeer d pc =
        { d with
          Peers := fun k => if k = pc.PublicKey then some p else d.Peers k,
          AllowedIPs := fun n => if n ∈ pc.AllowedIPs then some pc.PublicKey else d.AllowedIPs n } := by
  obtain ⟨h1, h2, h3, h4, h5, h6⟩ := h
  obtain ⟨e, he⟩ := Option.isSome_iff_exists.mp h5
  obtain ⟨t, ht⟩ := Option.isSome_iff_exists.mp h6
  refine ⟨{ PresharedKey :=
              (match d.Peers pc.PublicKey with
                | some q => q
                | none => { PresharedKey := none, Endpoint := none,
                            PersistentKeepaliveInterval := 0 }).PresharedKey,
            Endpoint := some e, PersistentKeepaliveInterval := t }, he.symm, ht.symm, ?_⟩
  unfold configurePeer
  simp only [h1, h2, h3, h4, he, ht, Bool.false_and, Bool.false_eq_true, if_false]
  congr 1
  funext n
  exact foldl_setAllowedIP _ _ _ n

theorem foldl_configurePeer_fields (peers : List wgtypes.PeerConfig) (d : Device)
    (hb : ∀ pc ∈ peers, AsBuilt pc) :
    (peers.foldl configurePeer d).PrivateKey = d.PrivateKey ∧
    (peers.foldl configurePeer d).ListenPort = d.ListenPort ∧
    (peers.foldl configurePeer d).FirewallMark = d.FirewallMark := by
  induction peers generalizing d with
  | nil => exact ⟨rfl, rfl, rfl⟩
  | cons pc rest ih =>
    obtain ⟨p, _, _, hcfg⟩ := configurePeer_asBuilt d pc (hb pc (List.mem_cons_self _ _))
    have := ih (configurePeer d pc) (fun q hq => hb q (List.mem_cons_of_mem _ hq))
    simp only [List.foldl_cons]
    rw [this.1, this.2.1, this.2.2, hcfg]
    exact ⟨rfl, rfl, rfl⟩

theorem foldl_configurePeer_peers_other (peers : List wgtypes.PeerConfig) (d : Device)
    (hb : ∀ pc ∈ peers, AsBuilt pc) (k : wgtypes.Key) (hk : k ∉ keysOf peers) :
    (peers.foldl configurePeer d).Peers k = d.Peers k := by
  induction peers generalizing d with
  | nil => rfl
  | cons pc rest ih =>
    simp only [keysOf, List.map_cons, List.mem_cons, not_or] at hk
    obtain ⟨p, _, _, hcfg⟩ := configurePeer_asBuilt d pc (hb pc (List.mem_cons_self _ _))
    simp only [List.foldl_cons]
    rw [ih (configurePeer d pc) (fun q hq => hb q (List.mem_cons_of_mem _ hq)) hk.2, hcfg]
    simp [hk.1]

theorem foldl_configurePeer_table_other (peers : List wgtypes.PeerConfig) (d : Device)
    (hb : ∀ pc ∈ peers, AsBuilt pc) (n : net.IPNet) (hn : ∀ pc ∈ peers, n ∉ pc.AllowedIPs) :
    (peers.foldl configurePeer d).AllowedIPs n = d.AllowedIPs n := by
  induction peers generalizing d with
  | nil => rfl
  | cons pc rest ih =>
    obtain ⟨p, _, _, hcfg⟩ := configurePeer_asBuilt d pc (hb pc (List.mem_cons_self _ _))
    simp only [List.foldl_cons]
    rw [ih (configurePeer d pc) (fun q hq => hb q (List.mem_cons_of_mem _ hq))
      (fun q hq => hn q (List.mem_cons_of_mem _ hq)), hcfg]
    simp [hn pc (List.mem_cons_self _ _)]

theorem foldl_configurePeer_hasPeer_mono (peers : List wgtypes.PeerConfig) (d : Device)
    (hb : ∀ pc ∈ peers, AsBuilt pc) (k : wgtypes.Key) (hk : d.hasPeer k = true) :
    (peers.foldl configurePeer d).hasPeer k = true := by
  induction peers generalizing d with
  | nil => exact hk
  | cons pc rest ih =>
    obtain ⟨p, _, _, hcfg⟩ := configurePeer_asBuilt d pc (hb pc (List.mem_cons_self _ _))
    simp only [List.foldl_cons]
    apply ih (configurePeer d pc) (fun q hq => hb q (List.mem_cons_of_mem _ hq))
    rw [hcfg]
    unfold Device.hasPeer at hk ⊢
    by_cases h : k = pc.PublicKey <;> simp [h, hk]

theorem foldl_configurePeer_hasPeer_mem (peers : List wgtypes.PeerConfig) (d : Device)
    (hb : ∀ pc ∈ peers, AsBuilt pc) (pc : wgtypes.PeerConfig) (hpc : pc ∈ peers) :
    (peers.foldl configurePeer d).hasPeer pc.PublicKey = true := by
  induction peers generalizing d with
  | nil => cases hpc
  | cons q rest ih =>
    simp only [List.foldl_cons]
    rcases List.mem_cons.mp hpc with h | h
    · subst h
      obtain ⟨p, _, _, hcfg⟩ := configurePeer_asBuilt d pc (hb pc (List.mem_cons_self _ _))
      apply foldl_configurePeer_hasPeer_mono rest _ (fun q hq => hb q (List.mem_cons_of_mem _ hq))
      rw [hcfg]
      simp [Device.hasPeer]
    · exact ih (configurePeer d q) (fun q hq => hb q (List.mem_cons_of_mem _ hq)) h

theorem foldl_configurePeer_hasPeer_inv (peers : List wgtypes.PeerConfig) (d : Device)
    (hb : ∀ pc ∈ peers, AsBuilt pc) (k : wgtypes.Key)
    (hk : (peers.foldl configurePeer d).hasPeer k = true) :
    d.hasPeer k = true ∨ k ∈ keysOf peers := by
  by_cases hmem : k ∈ keysOf peers
  · exact Or.inr hmem
  · left
    unfold Device.hasPeer at hk ⊢
    rw [foldl_configurePeer_peers_other peers d hb k hmem] at hk
    exact hk

theorem foldl_configurePeer_table_inv (peers : List wgtypes.PeerConfig) (d : Device)
    (hb : ∀ pc ∈ peers, AsBuilt pc) (n : net.IPNet) (k : wgtypes.Key)
    (hk : (peers.foldl configurePeer d).AllowedIPs n = some k) :
    d.AllowedIPs n = some k ∨ ∃ pc ∈ peers, pc.PublicKey = k ∧ n ∈ pc.AllowedIPs := by
  induction peers generalizing d with
  | nil => exact Or.inl hk
  | cons q rest ih =>
    simp only [List.foldl_cons] at hk
    rcases ih (configurePeer d q) (fun q hq => hb q (List.mem_cons_of_mem _ hq)) hk with h | h
    · obtain ⟨p, _, _, hcfg⟩ := configurePeer_asBuilt d q (hb q (List.mem_cons_self _ _))
      rw [hcfg] at h
      simp only at h
      by_cases hn : n ∈ q.AllowedIPs
      · rw [if_pos hn] at h
        exact Or.inr ⟨q, List.mem_cons_self _ _, Option.some.inj h, hn⟩
      · rw [if_neg hn] at h
        exact Or.inl h
    · obtain ⟨pc, hpc, h1, h2⟩ := h
      exact Or.inr ⟨pc, List.mem_cons_of_mem _ hpc, h1, h2⟩

/-- The device has the entry: a peer with its key, endpoint and keepalive, and
the prefixes of the entry belong to that peer. -/
theorem foldl_configurePeer_has (peers : List wgtypes.PeerConfig) (d : Device)
    (hb : ∀ pc ∈ peers, AsBuilt pc) (hnodup : (keysOf peers).Nodup)
    (hdisj : DisjointAllowedIPs peers) (pc : wgtypes.PeerConfig) (hpc : pc ∈ peers) :
    (∃ p, (peers.foldl configurePeer d).Peers pc.PublicKey = some p ∧ p.Endpoint = pc.Endpoint ∧
      some p.PersistentKeepaliveInterval = pc.PersistentKeepaliveInterval) ∧
    ∀ n ∈ pc.AllowedIPs, (peers.foldl configurePeer d).AllowedIPs n = some pc.PublicKey := by
  induction peers generalizing d with
  | nil => cases hpc
  | cons q rest ih =>
    simp only [keysOf, List.map_cons, List.nodup_cons] at hnodup
    unfold DisjointAllowedIPs at hdisj
    rw [List.pairwise_cons] at hdisj
    have hbr : ∀ pc ∈ rest, AsBuilt pc := fun q hq => hb q (List.mem_cons_of_mem _ hq)
    simp only [List.foldl_cons]
    rcases List.mem_cons.mp hpc with h | h
    · subst h
      obtain ⟨p, hpe, hpk, hcfg⟩ := configurePeer_asBuilt d pc (hb pc (List.mem_cons_self _ _))
      constructor
      · refine ⟨p, ?_, hpe, hpk⟩
        rw [foldl_configurePeer_peers_other rest _ hbr pc.PublicKey hnodup.1, hcfg]
        simp
      · intro n hn
        rw [foldl_configurePeer_table_other rest _ hbr n (fun r hr => hdisj.1 r hr n hn), hcfg]
        simp [hn]
    · exact ih (configurePeer d q) hbr hnodup.2 hdisj.2 h

theorem configurePeer_cells (d : Device) (pc : wgtypes.PeerConfig) (h : AsBuilt pc) :
    configurePeer d pc =
      { d with
        Peers := fun k => cellPeer k (d.Peers k) pc,
        AllowedIPs := fun n => cellOwner n (d.AllowedIPs n) pc } := by
  obtain ⟨h1, h2, h3, h4, h5, h6⟩ := h
  obtain ⟨e, he⟩ := Option.isSome_iff_exists.mp h5
  obtain ⟨t, ht⟩ := Option.isSome_iff_exists.mp h6
  unfold configurePeer
  simp only [h1, h2, h3, h4, he, ht, Bool.false_and, Bool.false_eq_true, if_false]
  congr 1
  · funext k
    unfold cellPeer
    by_cases hk : k = pc.PublicKey
    · rw [if_pos hk, if_pos hk, he, ht, hk]
      cases d.Peers pc.PublicKey <;> rfl
    · rw [if_neg hk, if_neg hk]
  · funext n
    exact foldl_setAllowedIP _ _ _ n

theorem foldl_configurePeer_cells (peers : List wgtypes.PeerConfig) (d : Device)
    (hb : ∀ pc ∈ peers, AsBuilt pc) :
    (∀ k, (peers.foldl configurePeer d).Peers k = peers.foldl (cellPeer k) (d.Peers k)) ∧
    ∀ n, (peers.foldl configurePeer d).AllowedIPs n
      = peers.foldl (cellOwner n) (d.AllowedIPs n) := by
  induction peers generalizing d with
  | nil => exact ⟨fun _ => rfl, fun _ => rfl⟩
  | cons pc rest ih =>
    have hstep := configurePeer_cells d pc (hb pc (List.mem_cons_self _ _))
    have := ih (configurePeer d pc) (fun q hq => hb q (List.mem_cons_of_mem _ hq))
    simp only [List.foldl_cons]
    refine ⟨fun k => ?_, fun n => ?_⟩
    · rw [this.1 k, hstep]
    · rw [this.2 n, hstep]

theorem foldr_cellOwner (n : net.IPNet) (c : Option wgtypes.Key) (R : List wgtypes.PeerConfig) :
    R.foldr (fun pc c => cellOwner n c pc) c =
      match R.find? (fun pc => decide (n ∈ pc.AllowedIPs)) with
      | some pc => some pc.PublicKey
      | none => c := by
  induction R with
  | nil => rfl
  | cons x R ih =>
    simp only [List.foldr_cons, List.find?_cons]
    rw [ih]
    unfold cellOwner
    by_cases hx : n ∈ x.AllowedIPs
    · simp only [hx, if_true, decide_True]
    · simp only [hx, if_false, decide_False]

theorem foldr_cellPeer (k : wgtypes.Key) (c : Option DevicePeer) (R : List wgtypes.PeerConfig) :
    R.foldr (fun pc c => cellPeer k c pc) c =
      match R.find? (fun pc => decide (k = pc.PublicKey)) with
      | some pc =>
        some { PresharedKey := c.bind (fun q => q.PresharedKey),
               Endpoint := pc.Endpoint,
               PersistentKeepaliveInterval := pc.PersistentKeepaliveInterval.getD 0 }
      | none => c := by
  induction R with
  | nil => rfl
  | cons x R ih =>
    simp only [List.foldr_cons, List.find?_cons]
    rw [ih]
    unfold cellPeer
    by_cases hx : k = x.PublicKey
    · simp only [hx, if_true, decide_True]
      cases R.find? (fun pc => decide (x.PublicKey = pc.PublicKey)) <;> rfl
    · simp only [hx, if_false, decide_False]

theorem find?_suffix_again {α : Type} (p : α → Bool) (A B : List α) :
    (A ++ (A ++ B)).find? p = (A ++ B).find? p := by
  simp only [List.find?_append]
  cases A.find? p <;> rfl

theorem foldl_cellOwner_again (n : net.IPNet) (c : Option wgtypes.Key)
    (Y X : List wgtypes.PeerConfig) :
    ((Y ++ X) ++ X).foldl (cellOwner n) ((Y ++ X).foldl (cellOwner n) c)
      = (Y ++ X).foldl (cellOwner n) c := by
  have hfold : ∀ (Z : List wgtypes.PeerConfig) (c : Option wgtypes.Key),
      Z.foldl (cellOwner n) c = Z.reverse.foldr (fun pc c => cellOwner n c pc) c := by
    intro Z c
    rw [List.foldr_reverse]
  rw [hfold ((Y ++ X) ++ X), hfold (Y ++ X), foldr_cellOwner, foldr_cellOwner]
  have hrev : ((Y ++ X) ++ X).reverse = X.reverse ++ (X.reverse ++ Y.reverse) := by simp
  have hrev2 : (Y ++ X).reverse = X.reverse ++ Y.reverse := by simp
  rw [hrev, hrev2, find?_suffix_again]
  cases (X.reverse ++ Y.reverse).find? (fun pc => decide (n ∈ pc.AllowedIPs)) <;> rfl

theorem foldl_cellPeer_again (k : wgtypes.Key) (c : Option DevicePeer)
    (Y X : List wgtypes.PeerConfig) :
    ((Y ++ X) ++ X).foldl (cellPeer k) ((Y ++ X).foldl (cellPeer k) c)
      = (Y ++ X).foldl (cellPeer k) c := by
  have hfold : ∀ (Z : List wgtypes.PeerConfig) (c : Option DevicePeer),
      Z.foldl (cellPeer k) c = Z.reverse.foldr (fun pc c => cellPeer k c pc) c := by
    intro Z c
    rw [List.foldr_reverse]
  rw [hfold ((Y ++ X) ++ X), hfold (Y ++ X), foldr_cellPeer, foldr_cellPeer]
  have hrev : ((Y ++ X) ++ X).reverse = X.reverse ++ (X.reverse ++ Y.reverse) := by simp
  have hrev2 : (Y ++ X).reverse = X.reverse ++ Y.reverse := by simp
  rw [hrev, hrev2, find?_suffix_again]
  cases (X.reverse ++ Y.reverse).find? (fun pc => decide (k = pc.PublicKey)) <;> rfl

theorem Device.ext_fields (d e : Device) (h1 : d.PrivateKey = e.PrivateKey)
    (h2 : d.ListenPort = e.ListenPort) (h3 : d.FirewallMark = e.FirewallMark)
    (h4 : ∀ k, d.Peers k = e.Peers k) (h5 : ∀ n, d.AllowedIPs n = e.AllowedIPs n) : d = e := by
  cases d; cases e
  simp only at h1 h2 h3 h4 h5
  simp only [Device.mk.injEq]
  exact ⟨h1, h2, h3, funext h4, funext h5⟩

end wgctrl

namespace wgctrl

open wgconf

theorem configureDevice_eq (d : Device) (cfg : wgtypes.Config) (hrep : cfg.ReplacePeers = false) :
    configureDevice d cfg = cfg.Peers.foldl configurePeer (configureFields d cfg) := by
  unfold configureDevice
  simp [hrep]

theorem configureFields_again (d dd : Device) (cfg : wgtypes.Config)
    (h1 : dd.PrivateKey = (configureFields d cfg).PrivateKey)
    (h2 : dd.ListenPort = (configureFields d cfg).ListenPort)
    (h3 : dd.FirewallMark = (configureFields d cfg).FirewallMark) :
    configureFields dd cfg = dd := by
  cases dd with
  | mk pk lp fm ps ips =>
    simp only [configureFields] at h1 h2 h3 ⊢
    subst h1 h2 h3
    congr 1
    · cases cfg.PrivateKey <;> rfl
    · cases cfg.ListenPort <;> rfl
    · cases cfg.FirewallMark <;> rfl

theorem configureDevice_again (d : Device) (cfg : wgtypes.Config)
    (Y X : List wgtypes.PeerConfig) (hrep : cfg.ReplacePeers = false)
    (hY : ∀ pc ∈ Y, AsBuilt pc) (hX : ∀ pc ∈ X, AsBuilt pc) :
    configureDevice (configureDevice d { cfg with Peers := Y ++ X })
        { cfg with Peers := (Y ++ X) ++ X } =
      configureDevice d { cfg with Peers := Y ++ X } := by
  have hZ : ∀ pc ∈ Y ++ X, AsBuilt pc := by
    intro pc hpc
    rcases List.mem_append.mp hpc with h | h
    · exact hY pc h
    · exact hX pc h
  have hZ2 : ∀ pc ∈ (Y ++ X) ++ X, AsBuilt pc := by
    intro pc hpc
    rcases List.mem_append.mp hpc with h | h
    · exact hZ pc h
    · exact hX pc h
  rw [configureDevice_eq _ { cfg with Peers := (Y ++ X) ++ X } hrep,
    configureDevice_eq d { cfg with Peers := Y ++ X } hrep]
  simp only
  have hf := foldl_configurePeer_fields (Y ++ X) (configureFields d { cfg with Peers := Y ++ X }) hZ
  have hfields : configureFields
      ((Y ++ X).foldl configurePeer (configureFields d { cfg with Peers := Y ++ X }))
      { cfg with Peers := (Y ++ X) ++ X } =
      (Y ++ X).foldl configurePeer (configureFields d { cfg with Peers := Y ++ X }) :=
    configureFields_again d _ _ hf.1 hf.2.1 hf.2.2
  rw [hfields]
  have hf2 := foldl_configurePeer_fields ((Y ++ X) ++ X)
    ((Y ++ X).foldl configurePeer (configureFields d { cfg with Peers := Y ++ X })) hZ2
  have hc1 := foldl_configurePeer_cells (Y ++ X) (configureFields d { cfg with Peers := Y ++ X }) hZ
  have hc2 := foldl_configurePeer_cells ((Y ++ X) ++ X)
    ((Y ++ X).foldl configurePeer (configureFields d { cfg with Peers := Y ++ X })) hZ2
  apply Device.ext_fields _ _ hf2.1 hf2.2.1 hf2.2.2
  · intro k
    rw [hc2.1 k, hc1.1 k]
    exact foldl_cellPeer_again k _ Y X
  · intro n
    rw [hc2.2 n, hc1.2 n]
    exact foldl_cellOwner_again n _ Y X

end wgctrl

namespace wgconf

theorem peerConfigOf_asBuilt (L : Lib) (peer : Peer) (pc : wgtypes.PeerConfig)
    (h : peerConfigOf L peer = some pc) : AsBuilt pc := by
  unfold peerConfigOf at h
  cases hk : L.ParseKey peer.PublicKey with
  | none => rw [hk] at h; cases h
  | some k =>
    cases hi : parseAllowedIPs L peer.AllowedIPs [] with
    | none => rw [hk, hi] at h; cases h
    | some ips =>
      rw [hk, hi] at h
      cases h
      exact ⟨rfl, rfl, rfl, rfl, rfl, rfl⟩

theorem peerConfigsOf_asBuilt (L : Lib) (peers : List Peer) :
    ∀ pc ∈ peerConfigsOf L peers, AsBuilt pc := by
  intro pc hpc
  obtain ⟨p, _, hp⟩ := List.mem_filterMap.mp hpc
  exact peerConfigOf_asBuilt L p pc hp

theorem runCall_asBuilt (L : Lib) (wg : WireGuardTrun) (call : Call)
    (h : ∀ pc ∈ wg.cfg.Peers, AsBuilt pc) :
    (∀ pc ∈ (runCall L wg call).cfg.Peers, AsBuilt pc) ∧
    (runCall L wg call).cfg.ReplacePeers = wg.cfg.ReplacePeers ∧
    (runCall L wg call).InterfaceName = wg.InterfaceName := by
  cases call with
  | add peer =>
    simp only [runCall]
    rw [AddPeer_peers]
    refine ⟨?_, rfl, rfl⟩
    intro pc hpc
    rcases List.mem_append.mp hpc with h1 | h1
    · exact h pc h1
    · exact peerConfigsOf_asBuilt L [peer] pc h1
  | remove key =>
    simp only [runCall]
    refine ⟨fun pc hpc => h pc ((RemovePeer_sublist L wg key).subset hpc), ?_, ?_⟩ <;>
    · unfold RemovePeer
      cases L.ParseKey key with
      | none => rfl
      | some k => cases hf : findPeerIndex k wg.cfg.Peers <;> simp only [hf]

theorem runCalls_asBuilt (L : Lib) (calls : List Call) (wg : WireGuardTrun)
    (h : ∀ pc ∈ wg.cfg.Peers, AsBuilt pc) :
    (∀ pc ∈ (runCalls L wg calls).cfg.Peers, AsBuilt pc) ∧
    (runCalls L wg calls).cfg.ReplacePeers = wg.cfg.ReplacePeers := by
  induction calls generalizing wg with
  | nil => exact ⟨h, rfl⟩
  | cons call rest ih =>
    have hstep := runCall_asBuilt L wg call h
    have := ih (runCall L wg call) hstep.1
    exact ⟨this.1, by rw [← hstep.2.1]; exact this.2⟩

end wgconf

namespace wgconf

open wgctrl

theorem UpdateConfigInterfaceWgTrun_ok (wg : WireGuardTrun) (os : Driver)
    (hok : (UpdateConfigInterfaceWgTrun wg os).2 = none) :
    ∃ d, os.devices wg.InterfaceName = some d ∧
      (UpdateConfigInterfaceWgTrun wg os).1.devices wg.InterfaceName
        = some (configureDevice d wg.cfg) := by
  unfold UpdateConfigInterfaceWgTrun at hok ⊢
  by_cases hc : os.clientFails = true
  · rw [if_pos hc] at hok; cases hok
  · rw [if_neg hc] at hok ⊢
    unfold ConfigureDevice at hok ⊢
    cases hd : os.devices wg.InterfaceName with
    | none => rw [hd] at hok; cases hok
    | some d => exact ⟨d, rfl, by simp⟩

theorem configureDevice_peersEqual (d : Device) (cfg : wgtypes.Config)
    (hrep : cfg.ReplacePeers = false) (hb : ∀ pc ∈ cfg.Peers, AsBuilt pc)
    (hnone : d.noPeers) (hnodup : (keysOf cfg.Peers).Nodup)
    (hdisj : DisjointAllowedIPs cfg.Peers) :
    (configureDevice d cfg).peersEqual cfg.Peers := by
  rw [configureDevice_eq d cfg hrep]
  have hP : ∀ k, (configureFields d cfg).hasPeer k = false := by
    intro k; simp [Device.hasPeer, configureFields, hnone.1 k]
  have hT : ∀ n, (configureFields d cfg).AllowedIPs n = none := fun n => hnone.2 n
  constructor
  · intro k
    constructor
    · intro hk
      rcases foldl_configurePeer_hasPeer_inv cfg.Peers _ hb k hk with h | h
      · rw [hP k] at h; cases h
      · exact h
    · intro hk
      obtain ⟨pc, hpc, e⟩ := List.mem_map.mp hk
      rw [← e]
      exact foldl_configurePeer_hasPeer_mem cfg.Peers _ hb pc hpc
  · intro pc hpc
    have hhas := foldl_configurePeer_has cfg.Peers (configureFields d cfg) hb hnodup hdisj pc hpc
    refine ⟨hhas.1, fun n => ⟨?_, hhas.2 n⟩⟩
    intro hn
    rcases foldl_configurePeer_table_inv cfg.Peers _ hb n pc.PublicKey hn with h | h
    · rw [hT n] at h; cases h
    · obtain ⟨q, hq, hkey, hmem⟩ := h
      have : q = pc := List.inj_on_of_nodup_map hnodup hq hpc hkey
      rw [← this]; exact hmem

theorem UpdateConfigInterfaceWgTrun_asBuilt (wg : WireGuardTrun) (os : Driver)
    (hrep : wg.cfg.ReplacePeers = false) (hb : ∀ pc ∈ wg.cfg.Peers, AsBuilt pc)
    (hok : (UpdateConfigInterfaceWgTrun wg os).2 = none) :
    ∃ d d', os.devices wg.InterfaceName = some d ∧
      (UpdateConfigInterfaceWgTrun wg os).1.devices wg.InterfaceName = some d' ∧
      (∀ k, d.hasPeer k = true → d'.hasPeer k = true) ∧
      (∀ pc ∈ wg.cfg.Peers, d'.hasPeer pc.PublicKey = true) ∧
      (∀ k, d'.hasPeer k = true → d.hasPeer k = true ∨ k ∈ keysOf wg.cfg.Peers) ∧
      (d.noPeers → (keysOf wg.cfg.Peers).Nodup → DisjointAllowedIPs wg.cfg.Peers →
        d'.peersEqual wg.cfg.Peers) := by
  obtain ⟨d, hd, hd'⟩ := UpdateConfigInterfaceWgTrun_ok wg os hok
  refine ⟨d, configureDevice d wg.cfg, hd, hd', ?_, ?_, ?_, ?_⟩
  · intro k hk
    rw [configureDevice_eq d wg.cfg hrep]
    exact foldl_configurePeer_hasPeer_mono _ _ hb k hk
  · intro pc hpc
    rw [configureDevice_eq d wg.cfg hrep]
    exact foldl_configurePeer_hasPeer_mem _ _ hb pc hpc
  · intro k hk
    rw [configureDevice_eq d wg.cfg hrep] at hk
    exact foldl_configurePeer_hasPeer_inv _ (configureFields d wg.cfg) hb k hk
  · intro hnone hnodup hdisj
    exact configureDevice_peersEqual d wg.cfg hrep hb hnone hnodup hdisj

/-- C3 (as stated, at a concrete input): `peerOne` is added and applied to
the device `wg0`, then dropped with `RemovePeer`; the next
`UpdateConfigInterfaceWgTrun` returns no error, the peer list of the handle is
empty, and the device still has the peer with the key of `peerOne`. -/
theorem UpdateConfigInterfaceWgTrun_keeps_removed_peer :
    (AddPeer sample.lib sample.handle0 sample.peerOne).2 = none ∧
    (UpdateConfigInterfaceWgTrun sample.handleOne sample.driver0).2 = none ∧
    (RemovePeer sample.lib sample.handleOne sample.peerOne.PublicKey).2 = none ∧
    sample.handleNone.cfg.Peers = [] ∧
    (UpdateConfigInterfaceWgTrun sample.handleNone sample.driverOne).2 = none ∧
    ((UpdateConfigInterfaceWgTrun sample.handleNone sample.driverOne).1.devices
        sample.handleNone.InterfaceName).map (fun d => d.hasPeer sample.keyOne) = some true := by
  decide

/-- C3 (amended): for a handle whose peer list was built by `AddPeer` and
`RemovePeer` calls, after `UpdateConfigInterfaceWgTrun` returns no error every
entry of the peer list is on the device, every peer that was on the device
before the call is still on it, and the device has no other peer (the driver
is called with the configuration as built, without `ReplacePeers` and without
per-peer `Remove`). The peer set of the device equals the peer list, keyed by
public key with endpoint, allowedIPs and keepalive, when the device had no
peers before the call and the peer list has pairwise distinct keys and no
prefix listed by two entries. -/
theorem UpdateConfigInterfaceWgTrun_device (L : Lib) (wg0 : WireGuardTrun) (calls : List Call)
    (os : Driver) (hpeers : wg0.cfg.Peers = []) (hrep : wg0.cfg.ReplacePeers = false)
    (hok : (UpdateConfigInterfaceWgTrun (runCalls L wg0 calls) os).2 = none) :
    ∃ d d', os.devices (runCalls L wg0 calls).InterfaceName = some d ∧
      (UpdateConfigInterfaceWgTrun (runCalls L wg0 calls) os).1.devices
        (runCalls L wg0 calls).InterfaceName = some d' ∧
      (∀ k, d.hasPeer k = true → d'.hasPeer k = true) ∧
      (∀ pc ∈ (runCalls L wg0 calls).cfg.Peers, d'.hasPeer pc.PublicKey = true) ∧
      (∀ k, d'.hasPeer k = true →
        d.hasPeer k = true ∨ k ∈ keysOf (runCalls L wg0 calls).cfg.Peers) ∧
      (d.noPeers → (keysOf (runCalls L wg0 calls).cfg.Peers).Nodup →
        DisjointAllowedIPs (runCalls L wg0 calls).cfg.Peers →
        d'.peersEqual (runCalls L wg0 calls).cfg.Peers) := by
  have hb := runCalls_asBuilt L calls wg0 (by rw [hpeers]; intro pc h; cases h)
  exact UpdateConfigInterfaceWgTrun_asBuilt _ os (by rw [hb.2]; exact hrep) hb.1 hok

end wgconf

namespace wgconf

open wgctrl

theorem UpdateConfigInterfaceWgTrun_device_witness :
    (sample.handle0.cfg.Peers = [] ∧ sample.handle0.cfg.ReplacePeers = false ∧
      (UpdateConfigInterfaceWgTrun (runCalls sample.lib sample.handle0 sample.callsMain)
        sample.driver0).2 = none) ∧
    ∃ d d', sample.driver0.devices
        (runCalls sample.lib sample.handle0 sample.callsMain).InterfaceName = some d ∧
      (UpdateConfigInterfaceWgTrun (runCalls sample.lib sample.handle0 sample.callsMain)
        sample.driver0).1.devices
        (runCalls sample.lib sample.handle0 sample.callsMain).InterfaceName = some d' ∧
      (∀ k, d.hasPeer k = true → d'.hasPeer k = true) ∧
      (∀ pc ∈ (runCalls sample.lib sample.handle0 sample.callsMain).cfg.Peers,
        d'.hasPeer pc.PublicKey = true) ∧
      (∀ k, d'.hasPeer k = true →
        d.hasPeer k = true ∨
          k ∈ keysOf (runCalls sample.lib sample.handle0 sample.callsMain).cfg.Peers) ∧
      (d.noPeers →
        (keysOf (runCalls sample.lib sample.handle0 sample.callsMain).cfg.Peers).Nodup →
        DisjointAllowedIPs (runCalls sample.lib sample.handle0 sample.callsMain).cfg.Peers →
        d'.peersEqual (runCalls sample.lib sample.handle0 sample.callsMain).cfg.Peers) :=
  ⟨by decide,
   UpdateConfigInterfaceWgTrun_device sample.lib sample.handle0 sample.callsMain sample.driver0
     (by decide) (by decide) (by decide)⟩

theorem addPeers_interfaceName (L : Lib) (wg : WireGuardTrun) (peers : List Peer) :
    (addPeers L wg peers).InterfaceName = wg.InterfaceName := by
  rw [addPeers_eq]

theorem UpdateConfigInterfaceWgTrun_again (wg1 wg2 : WireGuardTrun) (os : Driver)
    (hname : wg2.InterfaceName = wg1.InterfaceName)
    (hcfg : ∀ d, configureDevice (configureDevice d wg1.cfg) wg2.cfg = configureDevice d wg1.cfg) :
    UpdateConfigInterfaceWgTrun wg2 (UpdateConfigInterfaceWgTrun wg1 os).1 =
      UpdateConfigInterfaceWgTrun wg1 os := by
  unfold UpdateConfigInterfaceWgTrun
  by_cases hc : os.clientFails = true
  · simp only [if_pos hc]
  · simp only [if_neg hc]
    unfold ConfigureDevice
    cases hd : os.devices wg1.InterfaceName with
    | none => simp only [if_neg hc, hname, hd]
    | some d =>
      simp only [if_neg hc, hname, if_true, hcfg d]
      congr 2
      funext n
      by_cases hn : n = wg1.InterfaceName <;> simp [hn]

/-- C4 (as stated, at a concrete input): the three peers of
`client-peer/main.go` are valid, with pairwise distinct keys and pairwise
distinct prefixes; after the second application the peer list of the handle is
not the one after the first (it has six entries, not three). -/
theorem second_application_grows_peer_list :
    ((∀ p ∈ sample.desired, validPeer sample.lib p = true) ∧
      (sample.desired.map (fun p => sample.lib.ParseKey p.PublicKey)).Nodup ∧
      DisjointAllowedIPs (peerConfigsOf sample.lib sample.desired)) ∧
    (applyDesired sample.lib sample.handle0 sample.driver0 sample.desired).2.2 = none ∧
    (applyDesired sample.lib
        (applyDesired sample.lib sample.handle0 sample.driver0 sample.desired).1
        (applyDesired sample.lib sample.handle0 sample.driver0 sample.desired).2.1
        sample.desired).2.2 = none ∧
    (applyDesired sample.lib sample.handle0 sample.driver0 sample.desired).1.cfg.Peers.length = 3 ∧
    (applyDesired sample.lib
        (applyDesired sample.lib sample.handle0 sample.driver0 sample.desired).1
        (applyDesired sample.lib sample.handle0 sample.driver0 sample.desired).2.1
        sample.desired).1.cfg.Peers.length = 6 ∧
    (applyDesired sample.lib
        (applyDesired sample.lib sample.handle0 sample.driver0 sample.desired).1
        (applyDesired sample.lib sample.handle0 sample.driver0 sample.desired).2.1
        sample.desired).1.cfg.Peers ≠
      (applyDesired sample.lib sample.handle0 sample.driver0 sample.desired).1.cfg.Peers := by
  unfold DisjointAllowedIPs
  decide

/-- C4 (amended): for a handle whose peer list was built by `AddPeer` and
`RemovePeer` calls and for every list `D` of peers, applied twice in a row
(`AddPeer` for each peer of `D` in order, then `UpdateConfigInterfaceWgTrun`),
the second application changes nothing on the driver side: the devices after it
are those after the first, and the update returns what it returned the first
time. The peer list of the handle does change: it gains the entries of `D` at
each application, so after the second it holds them twice. -/
theorem applyDesired_twice (L : Lib) (wg0 : WireGuardTrun) (calls : List Call) (os : Driver)
    (D : List Peer) (hpeers : wg0.cfg.Peers = []) (hrep : wg0.cfg.ReplacePeers = false) :
    (applyDesired L (runCalls L wg0 calls) os D).1.cfg.Peers
      = (runCalls L wg0 calls).cfg.Peers ++ peerConfigsOf L D ∧
    (applyDesired L (applyDesired L (runCalls L wg0 calls) os D).1
        (applyDesired L (runCalls L wg0 calls) os D).2.1 D).1.cfg.Peers
      = ((runCalls L wg0 calls).cfg.Peers ++ peerConfigsOf L D) ++ peerConfigsOf L D ∧
    (applyDesired L (applyDesired L (runCalls L wg0 calls) os D).1
        (applyDesired L (runCalls L wg0 calls) os D).2.1 D).2.1
      = (applyDesired L (runCalls L wg0 calls) os D).2.1 ∧
    (applyDesired L (applyDesired L (runCalls L wg0 calls) os D).1
        (applyDesired L (runCalls L wg0 calls) os D).2.1 D).2.2
      = (applyDesired L (runCalls L wg0 calls) os D).2.2 := by
  have hb := runCalls_asBuilt L calls wg0 (by rw [hpeers]; intro pc h; cases h)
  rw [hrep] at hb
  generalize runCalls L wg0 calls = wg at hb ⊢
  have h1 : (addPeers L wg D).cfg = { wg.cfg with Peers := wg.cfg.Peers ++ peerConfigsOf L D } := by
    rw [addPeers_eq]
  have h2 : (addPeers L (addPeers L wg D) D).cfg
      = { wg.cfg with Peers := (wg.cfg.Peers ++ peerConfigsOf L D) ++ peerConfigsOf L D } := by
    rw [addPeers_eq, h1]
  have hagain : UpdateConfigInterfaceWgTrun (addPeers L (addPeers L wg D) D)
      (UpdateConfigInterfaceWgTrun (addPeers L wg D) os).1 =
      UpdateConfigInterfaceWgTrun (addPeers L wg D) os := by
    apply UpdateConfigInterfaceWgTrun_again _ _ os (addPeers_interfaceName L _ D)
    intro d
    rw [h1, h2]
    exact configureDevice_again d wg.cfg wg.cfg.Peers (peerConfigsOf L D) hb.2 hb.1
      (peerConfigsOf_asBuilt L D)
  unfold applyDesired
  simp only
  refine ⟨by rw [h1], by rw [h2], by rw [hagain], by rw [hagain]⟩

theorem applyDesired_twice_witness :
    (sample.handle0.cfg.Peers = [] ∧ sample.handle0.cfg.ReplacePeers = false) ∧
    ((applyDesired sample.lib (runCalls sample.lib sample.handle0 []) sample.driver0
        sample.desired).1.cfg.Peers
      = (runCalls sample.lib sample.handle0 []).cfg.Peers
          ++ peerConfigsOf sample.lib sample.desired ∧
    (applyDesired sample.lib
        (applyDesired sample.lib (runCalls sample.lib sample.handle0 []) sample.driver0
          sample.desired).1
        (applyDesired sample.lib (runCalls sample.lib sample.handle0 []) sample.driver0
          sample.desired).2.1
        sample.desired).1.cfg.Peers
      = ((runCalls sample.lib sample.handle0 []).cfg.Peers
          ++ peerConfigsOf sample.lib sample.desired) ++ peerConfigsOf sample.lib sample.desired ∧
    (applyDesired sample.lib
        (applyDesired sample.lib (runCalls sample.lib sample.handle0 []) sample.driver0
          sample.desired).1
        (applyDesired sample.lib (runCalls sample.lib sample.handle0 []) sample.driver0
          sample.desired).2.1
        sample.desired).2.1
      = (applyDesired sample.lib (runCalls sample.lib sample.handle0 []) sample.driver0
          sample.desired).2.1 ∧
    (applyDesired sample.lib
        (applyDesired sample.lib (runCalls sample.lib sample.handle0 []) sample.driver0
          sample.desired).1
        (applyDesired sample.lib (runCalls sample.lib sample.handle0 []) sample.driver0
          sample.desired).2.1
        sample.desired).2.2
      = (applyDesired sample.lib (runCalls sample.lib sample.handle0 []) sample.driver0
          sample.desired).2.2) :=
  ⟨by decide,
   applyDesired_twice sample.lib sample.handle0 [] sample.driver0 sample.desired
     (by decide) (by decide)⟩

end wgconf
